import Mathlib

/-! The usEskimi bidder adapter.

A shallow embedding of `adapters/usEskimi/usEskimi.go` and the properties of its
request fan-out (`MakeRequests`), endpoint resolution (`buildEndpointURL`) and
response mapping (`MakeBids`, `getMediaTypeForImp`).

Modelling conventions.

* A byte slice holding JSON is read through the JSON document it holds (`Json`), so two
  byte strings that differ only in white space or in the escaping of a character are the
  same value here; a JSON string is the text `encoding/json` reads from it. An extension
  (`RawMessage`) is such a document, or the bytes of an object cut before its final
  closing brace, or no bytes at all.
* A Go `string` that the adapter copies, compares or gets from `encoding/json` is a Lean
  `String`. The strings it hands to `json.Marshal` (`reqBodyExtBidder`) are `GoString`s,
  which can also hold bytes that are not UTF-8.
* A Go slice that may be `nil` is an `Option (List _)`, `none` being `nil`.
* A pointer that may be `nil` is an `Option`.
* A Go `error` value is an `Option Error`, `none` being `nil`.
* `json.Marshal` of a bid request and `json.Unmarshal` of a bid response depend on the
  whole OpenRTB schema; they are the two fields of `Codec`, a parameter of the adapter
  functions that use them.
-/

set_option autoImplicit false

namespace UsEskimi

/-! ## JSON documents -/

/-- A JSON document. The members of an object keep their order and may repeat a key. -/
inductive Json where
  | null
  | bool (b : Bool)
  | num (literal : String)
  | str (s : String)
  | arr (items : List Json)
  | obj (members : List (String × Json))

/-- The type `json.RawMessage`: no bytes at all (a nil or empty slice), the bytes of the
document `j`, or the bytes of the object with the given members cut before its final
closing brace, which are not a document. -/
inductive RawMessage where
  | empty
  | doc (j : Json)
  | unclosed (members : List (String × Json))

/-- The document that the scan of `jsonparser` goes through: the scan reads the bytes from
left to right without validating them and stops at a match, so it goes through an object
that lacks its final closing brace as through the whole object. -/
def RawMessage.scanned : RawMessage → Option Json
  | .empty => none
  | .doc j => some j
  | .unclosed members => some (.obj members)

/-- The document that `encoding/json` parses: the bytes are validated as a whole first, so
only a whole document parses. -/
def RawMessage.parsed : RawMessage → Option Json
  | .empty => none
  | .doc j => some j
  | .unclosed _ => none

/-- One step of the reading of a Go string by `utf8.DecodeRune`: a character, or a byte
that does not start a valid UTF-8 encoding where it stands. -/
inductive GoChar where
  | rune (c : Char)
  | invalid (byte : Nat)
  deriving DecidableEq, Repr

/-- A Go string as `utf8.DecodeRune` reads it from left to right; the empty list is the
empty string. -/
abbrev GoString := List GoChar

/-- The Go string that holds a text. -/
def GoString.ofText (s : String) : GoString :=
  s.data.map GoChar.rune

/-- The text that `encoding/json` writes for a Go string and reads from a JSON string:
every byte that is not UTF-8 becomes the character U+FFFD. -/
def GoString.toValidText (g : GoString) : String :=
  String.mk (g.map (fun c =>
    match c with
    | .rune r => r
    | .invalid _ => Char.ofNat 0xFFFD))

/-- A byte slice that is not read as a document by the adapter itself. -/
abbrev Bytes := String

/-- Go `error` values met by the adapter. -/
inductive Error where
  /-- The type `errortypes.BadInput`. -/
  | BadInput (Message : String)
  /-- The type `errortypes.BadServerResponse`. -/
  | BadServerResponse (Message : String)
  /-- The error `jsonparser.KeyPathNotFoundError`. -/
  | KeyPathNotFound
  /-- The `jsonparser.GetString` error for a value that is not a string. -/
  | ValueNotString
  /-- A syntax error of `jsonparser` or `encoding/json`. -/
  | MalformedJson
  /-- The type `json.UnmarshalTypeError`, with the Go type that was expected. -/
  | UnmarshalType (goType : String)
  /-- An error of the request or response codec. -/
  | Codec (msg : String)
  deriving DecidableEq, Repr

/-- The first member, in order, that has the given key and in whose value the search `f`
succeeds; a member with the key in whose value `f` fails is passed over. -/
def Json.firstMatch (f : Json → Option Json) (key : String) :
    List (String × Json) → Option Json
  | [] => none
  | (k, v) :: rest =>
    if k = key then
      match f v with
      | some found => some found
      | none => Json.firstMatch f key rest
    else Json.firstMatch f key rest

/-- The value at which the scan of `jsonparser` stops for a path of object keys: the first
full match of the path in document order. Keys are compared exactly; arrays and the
objects under other keys are not entered. -/
def Json.scanPath : List String → Json → Option Json
  | [], j => some j
  | k :: ks, .obj members => Json.firstMatch (Json.scanPath ks) k members
  | _ :: _, _ => none

namespace jsonparser

/-- The call `jsonparser.GetString(data, keys...)`, for the two-key paths of the package:
the string at which the scan stops, as the Go string that holds its text,
`KeyPathNotFoundError` when the scan ends without a match, an error when the value at the
match is not a string. -/
def GetString (data : RawMessage) (keys : List String) : Except Error GoString :=
  match data.scanned with
  | none => .error Error.KeyPathNotFound
  | some j =>
    match j.scanPath keys with
    | none => .error Error.KeyPathNotFound
    | some (.str s) => .ok (GoString.ofText s)
    | some _ => .error Error.ValueNotString

end jsonparser

/-! ## OpenRTB and host types -/

/-- The type `openrtb2.Banner`, its fields held as a document. -/
structure Banner where
  fields : Json

/-- The type `openrtb2.Video`, its fields held as a document. -/
structure Video where
  fields : Json

/-- The type `openrtb2.Native`, its fields held as a document. -/
structure Native where
  fields : Json

/-- The type `openrtb2.Imp`: the fields the adapter reads, and the others in `rest`. -/
structure Imp where
  ID : String
  Banner : Option Banner
  Video : Option Video
  Native : Option Native
  Ext : RawMessage
  rest : Json

/-- The type `openrtb2.BidRequest`: the impressions, and the other fields in `rest`. -/
structure BidRequest where
  ID : String
  Imp : List Imp
  rest : Json

/-- The type `openrtb2.Bid`: the fields the adapter reads, and the others in `rest`. -/
structure Bid where
  ID : String
  ImpID : String
  rest : Json

/-- The type `openrtb2.SeatBid`. -/
structure SeatBid where
  Bid : List Bid
  Seat : String

/-- The type `openrtb2.BidResponse`. -/
structure BidResponse where
  ID : String
  SeatBid : List SeatBid
  Cur : String

/-- The type `openrtb_ext.BidType`, a Go string type. -/
abbrev BidType := String

/-- Modelled from the spec: the media-type constants of `openrtb_ext`, declared outside
this package (banner, video and native classifications). -/
def BidTypeBanner : BidType := "banner"

/-- Modelled from the spec: see `BidTypeBanner`. -/
def BidTypeVideo : BidType := "video"

/-- Modelled from the spec: see `BidTypeBanner`. -/
def BidTypeNative : BidType := "native"

/-- The type `http.Header`: the values of each key, keys in order of insertion. -/
structure Header where
  entries : List (String × List String)
  deriving DecidableEq, Repr

/-- Appends a value to the entry of a key, creating the entry when it is missing. -/
def Header.addEntry (key value : String) :
    List (String × List String) → List (String × List String)
  | [] => [(key, [value])]
  | (k, vs) :: rest =>
    if k = key then (k, vs ++ [value]) :: rest else (k, vs) :: Header.addEntry key value rest

/-- The method `http.Header.Add`, for a key already in canonical form. -/
def Header.Add (h : Header) (key value : String) : Header :=
  ⟨Header.addEntry key value h.entries⟩

/-- The type `adapters.RequestData`. -/
structure RequestData where
  Method : String
  Uri : String
  Body : Bytes
  Headers : Header
  ImpIDs : List String
  deriving DecidableEq, Repr

/-- The type `adapters.ResponseData`. -/
structure ResponseData where
  StatusCode : Int
  Body : Bytes
  Headers : Header

/-- The type `adapters.TypedBid`. -/
structure TypedBid where
  Bid : Bid
  BidType : BidType

/-- The type `adapters.BidderResponse`. -/
structure BidderResponse where
  Currency : String
  Bids : List TypedBid

/-- Modelled from the spec: the constructor `adapters.NewBidderResponseWithBidsCapacity`
of the host package, which returns a response with no bids; its currency is overwritten
by `MakeBids` before any use. -/
def NewBidderResponseWithBidsCapacity (_bidsCapacity : Nat) : BidderResponse :=
  { Currency := "USD", Bids := [] }

/-- Modelled from the spec: the helper `openrtb_ext.GetImpIDs`, declared outside this
package, which gives the impression-id set of a call: the identifiers of the impressions
it is given, in order. -/
def GetImpIDs (imps : List Imp) : List String :=
  imps.map (fun imp => imp.ID)

/-- The two `encoding/json` calls that depend on the whole OpenRTB schema. -/
structure Codec where
  /-- The call `json.Marshal(request)` on a bid request. -/
  MarshalBidRequest : BidRequest → Except Error Bytes
  /-- The call `json.Unmarshal(body, &response)` into a bid response. -/
  UnmarshalBidResponse : Bytes → Except Error BidResponse

/-! ## The adapter package -/

/-- The constant `meditaTypeParam`. -/
def meditaTypeParam : String := "\x7bMediaType\x7d"

/-- The anonymous struct type of the field `ImpExtBidder.Bidder`. -/
structure ImpExtBidderBidder where
  MediaType : String
  deriving DecidableEq, Repr

/-- The type `ImpExtBidder`. -/
structure ImpExtBidder where
  Bidder : ImpExtBidderBidder
  deriving DecidableEq, Repr

/-- The type `adapter`. -/
structure adapter where
  endpoint : String
  deriving DecidableEq, Repr

/-- The type `reqBodyExtBidder`; its field `Type` is `Type_` here, `Type` being a
keyword. -/
structure reqBodyExtBidder where
  Type_ : GoString
  PlacementID : GoString
  deriving DecidableEq, Repr

/-- The type `reqBodyExt`. -/
structure reqBodyExt where
  UsEskimiBidderExt : reqBodyExtBidder
  deriving DecidableEq, Repr

/-! ## The `encoding/json` and `strings` calls of the package -/

namespace json

/-- The encoding of a `reqBodyExtBidder`, from its field tags `json:"type"` and
`json:"placementId,omitempty"`: the second member is left out for an empty string, and
the encoder writes U+FFFD for every byte of a string that is not UTF-8. -/
def encodeReqBodyExtBidder (v : reqBodyExtBidder) : Json :=
  .obj (("type", .str v.Type_.toValidText) ::
    (if v.PlacementID = [] then [] else [("placementId", .str v.PlacementID.toValidText)]))

/-- The call `json.Marshal(reqBodyExt ...)`: one member, tagged `json:"bidder"`. The
encoder has no failing case for a struct of strings. -/
def MarshalReqBodyExt (v : reqBodyExt) : Except Error RawMessage :=
  .ok (.doc (.obj [("bidder", encodeReqBodyExtBidder v.UsEskimiBidderExt)]))

/-- Key matching of the decoder: a member key selects a struct field when the two are
equal up to the case of ASCII letters. -/
def foldEq (key name : String) : Bool :=
  key.data.map Char.toLower == name.data.map Char.toLower

/-- Keeps the first error met while decoding, as `saveError` does. -/
def saveError (saved : Option Error) (err : Error) : Option Error :=
  match saved with
  | some e => some e
  | none => some err

/-- Decodes the members of an object into the anonymous struct of `ImpExtBidder.Bidder`,
whose one field is tagged `json:"mediaType"`: a string is stored, `null` leaves the field
as it is, any other value is a type error and decoding goes on. -/
def decodeBidderMembers :
    List (String × Json) → ImpExtBidderBidder → Option Error → ImpExtBidderBidder × Option Error
  | [], cur, saved => (cur, saved)
  | (k, v) :: rest, cur, saved =>
    if foldEq k "mediaType" then
      match v with
      | .str s => decodeBidderMembers rest { cur with MediaType := s } saved
      | .null => decodeBidderMembers rest cur saved
      | _ => decodeBidderMembers rest cur (saveError saved (Error.UnmarshalType "string"))
    else decodeBidderMembers rest cur saved

/-- Decodes a value into the field `ImpExtBidder.Bidder`. -/
def decodeBidder (v : Json) (cur : ImpExtBidderBidder) (saved : Option Error) :
    ImpExtBidderBidder × Option Error :=
  match v with
  | .obj members => decodeBidderMembers members cur saved
  | .null => (cur, saved)
  | _ => (cur, saveError saved (Error.UnmarshalType "struct"))

/-- Decodes the members of the top-level object into an `ImpExtBidder`, whose one field
`Bidder` has no tag. -/
def decodeImpExtMembers :
    List (String × Json) → ImpExtBidder → Option Error → ImpExtBidder × Option Error
  | [], cur, saved => (cur, saved)
  | (k, v) :: rest, cur, saved =>
    if foldEq k "Bidder" then
      let r := decodeBidder v cur.Bidder saved
      decodeImpExtMembers rest { cur with Bidder := r.1 } r.2
    else decodeImpExtMembers rest cur saved

/-- The call `json.Unmarshal(data, &impBidder)` on a zero `ImpExtBidder`: the decoded
value and the error returned. -/
def UnmarshalImpExtBidder (data : RawMessage) : ImpExtBidder × Option Error :=
  let zero : ImpExtBidder := { Bidder := { MediaType := "" } }
  match data.parsed with
  | none => (zero, some Error.MalformedJson)
  | some (.obj members) => decodeImpExtMembers members zero none
  | some .null => (zero, none)
  | some _ => (zero, some (Error.UnmarshalType "struct"))

end json

namespace strings

/-- One less replacement left, when the number of replacements is bounded. -/
def decLimit : Option Nat → Option Nat
  | none => none
  | some k => some (k - 1)

/-- The scan of `strings.Replace`, left to right over the characters of `s`: `limit` is
the number of replacements left (`none` for no bound) and `skip` the number of characters
of a matched occurrence still to pass over. -/
def replaceLoop (old new : List Char) : Option Nat → Nat → List Char → List Char
  | limit, _, [] => if old = [] ∧ limit ≠ some 0 then new else []
  | limit, skip + 1, _ :: cs => replaceLoop old new limit skip cs
  | limit, 0, c :: cs =>
    if limit = some 0 then c :: cs
    else if old = [] then new ++ c :: replaceLoop old new (decLimit limit) 0 cs
    else if old.isPrefixOf (c :: cs) then
      new ++ replaceLoop old new (decLimit limit) (old.length - 1) cs
    else c :: replaceLoop old new limit 0 cs

/-- The call `strings.Replace(s, old, new, n)`: the first `n` non-overlapping occurrences
of `old` replaced by `new`, all of them when `n < 0`. -/
def Replace (s old new : String) (n : Int) : String :=
  if old = new ∨ n = 0 then s
  else String.mk (replaceLoop old.data new.data (if n < 0 then none else some n.toNat) 0 s.data)

end strings

/-! ## The adapter functions -/

/-- The method `buildEndpointURL`. -/
def adapter.buildEndpointURL (a : adapter) (imp : Imp) : String :=
  let impBidder := json.UnmarshalImpExtBidder imp.Ext
  let publisherEndpoint :=
    if impBidder.2 = none ∧ impBidder.1.Bidder.MediaType ≠ "" then impBidder.1.Bidder.MediaType
    else ""
  strings.Replace a.endpoint meditaTypeParam publisherEndpoint (-1)

/-- The method `makeRequest`. -/
def adapter.makeRequest (C : Codec) (a : adapter) (request : BidRequest) (imp : Imp) :
    Option RequestData × Option Error :=
  match C.MarshalBidRequest request with
  | .error err => (none, some err)
  | .ok reqJSON =>
    let headers : Header := ⟨[]⟩
    let headers := headers.Add "Content-Type" "application/json;charset=utf-8"
    let headers := headers.Add "Accept" "application/json"
    (some
      { Method := "POST"
        Uri := a.buildEndpointURL imp
        Body := reqJSON
        Headers := headers
        ImpIDs := GetImpIDs request.Imp }, none)

/-- The loop of `MakeRequests` over the impressions still to visit, with the request copy
and the calls built so far. -/
def adapter.makeRequestsLoop (C : Codec) (a : adapter) :
    BidRequest → List Imp → List RequestData → Option (List RequestData) × Option (List Error)
  | _, [], adapterRequests => (some adapterRequests, none)
  | reqCopy, imp :: rest, adapterRequests =>
    let reqCopy := { reqCopy with Imp := [imp] }
    match jsonparser.GetString imp.Ext ["bidder", "placementId"] with
    | .error err => (none, some [err])
    | .ok placementID =>
      match json.MarshalReqBodyExt
          { UsEskimiBidderExt :=
            { PlacementID := placementID, Type_ := GoString.ofText "publisher" } } with
      | .error err => (none, some [err])
      | .ok extJson =>
        let reqCopy := { reqCopy with Imp := [{ imp with Ext := extJson }] }
        match a.makeRequest C reqCopy imp with
        | (_, some err) => (none, some [err])
        | (adapterReq, none) =>
          match adapterReq with
          | some r => adapter.makeRequestsLoop C a reqCopy rest (adapterRequests ++ [r])
          | none => adapter.makeRequestsLoop C a reqCopy rest adapterRequests

/-- The method `MakeRequests`. -/
def adapter.MakeRequests (C : Codec) (a : adapter) (request : BidRequest) :
    Option (List RequestData) × Option (List Error) :=
  a.makeRequestsLoop C request request.Imp []

/-- The function `getMediaTypeForImp`. -/
def getMediaTypeForImp (impID : String) : List Imp → BidType × Option Error
  | [] => ("", some (Error.BadInput ("Failed to find impression \"" ++ impID ++ "\"")))
  | imp :: imps =>
    if imp.ID = impID then
      if imp.Banner.isSome then (BidTypeBanner, none)
      else if imp.Video.isSome then (BidTypeVideo, none)
      else if imp.Native.isSome then (BidTypeNative, none)
      else getMediaTypeForImp impID imps
    else getMediaTypeForImp impID imps

/-- The inner loop of `MakeBids`, over the bids of one seat-bid. -/
def makeBidsInner (imps : List Imp) : List Bid → List TypedBid → Except Error (List TypedBid)
  | [], bids => .ok bids
  | bid :: rest, bids =>
    match getMediaTypeForImp bid.ImpID imps with
    | (_, some err) => .error err
    | (bidType, none) => makeBidsInner imps rest (bids ++ [{ Bid := bid, BidType := bidType }])

/-- The outer loop of `MakeBids`, over the seat-bids. -/
def makeBidsOuter (imps : List Imp) : List SeatBid → List TypedBid → Except Error (List TypedBid)
  | [], bids => .ok bids
  | seatBid :: rest, bids =>
    match makeBidsInner imps seatBid.Bid bids with
    | .error err => .error err
    | .ok bids => makeBidsOuter imps rest bids

/-- The method `MakeBids`. -/
def adapter.MakeBids (C : Codec) (_a : adapter) (request : BidRequest)
    (_requestData : RequestData) (responseData : ResponseData) :
    Option BidderResponse × Option (List Error) :=
  if responseData.StatusCode = 204 then (none, none)
  else if responseData.StatusCode ≠ 200 then
    (none, some [Error.BadServerResponse
      ("Unexpected status code: " ++ toString responseData.StatusCode ++
        ". Run with request.debug = 1 for more info.")])
  else
    match C.UnmarshalBidResponse responseData.Body with
    | .error err => (none, some [err])
    | .ok response =>
      let bidResponse := NewBidderResponseWithBidsCapacity request.Imp.length
      let bidResponse := { bidResponse with Currency := response.Cur }
      match makeBidsOuter request.Imp response.SeatBid bidResponse.Bids with
      | .error err => (none, some [err])
      | .ok bids => (some { bidResponse with Bids := bids }, none)

/-! ## Request fan-out: one loop iteration and the whole loop -/

/-- The key path of the placement identifier. -/
def placementPath : List String := ["bidder", "placementId"]

/-- The request copy that one iteration of `MakeRequests` encodes: the request with the
impression sequence replaced by the one impression, whose extension is `ext`. -/
def singleImpRequest (request : BidRequest) (imp : Imp) (ext : RawMessage) : BidRequest :=
  { request with Imp := [{ imp with Ext := ext }] }

/-- The outcome of one iteration of the loop of `MakeRequests` for an impression: the
error that ends the loop, or the call appended. -/
def iterationCall (C : Codec) (a : adapter) (request : BidRequest) (imp : Imp) :
    Except Error RequestData :=
  match jsonparser.GetString imp.Ext placementPath with
  | .error err => .error err
  | .ok p =>
    match C.MarshalBidRequest (singleImpRequest request imp
        (.doc (.obj [("bidder", json.encodeReqBodyExtBidder
          { PlacementID := p, Type_ := GoString.ofText "publisher" })]))) with
    | .error err => .error err
    | .ok body =>
      .ok { Method := "POST"
            Uri := a.buildEndpointURL imp
            Body := body
            Headers := ⟨[("Content-Type", ["application/json;charset=utf-8"]),
              ("Accept", ["application/json"])]⟩
            ImpIDs := [imp.ID] }

/-- The outcomes of the iterations for a list of impressions, up to the first error. -/
def iterationCalls (C : Codec) (a : adapter) (request : BidRequest) :
    List Imp → Except Error (List RequestData)
  | [] => .ok []
  | imp :: rest =>
    match iterationCall C a request imp with
    | .error err => .error err
    | .ok call =>
      match iterationCalls C a request rest with
      | .error err => .error err
      | .ok calls => .ok (call :: calls)

/-! ## Decoding the vendor extension -/

namespace json

/-- Decodes the members of an object into a `reqBodyExtBidder`, from its field tags
`json:"type"` and `json:"placementId,omitempty"`: a string is stored, `null` leaves the
field as it is, any other value is a type error and decoding goes on. -/
def decodeReqBodyExtBidderMembers :
    List (String × Json) → reqBodyExtBidder → Option Error → reqBodyExtBidder × Option Error
  | [], cur, saved => (cur, saved)
  | (k, v) :: rest, cur, saved =>
    if foldEq k "type" then
      match v with
      | .str s =>
        decodeReqBodyExtBidderMembers rest { cur with Type_ := GoString.ofText s } saved
      | .null => decodeReqBodyExtBidderMembers rest cur saved
      | _ =>
        decodeReqBodyExtBidderMembers rest cur (saveError saved (Error.UnmarshalType "string"))
    else if foldEq k "placementId" then
      match v with
      | .str s =>
        decodeReqBodyExtBidderMembers rest { cur with PlacementID := GoString.ofText s } saved
      | .null => decodeReqBodyExtBidderMembers rest cur saved
      | _ =>
        decodeReqBodyExtBidderMembers rest cur (saveError saved (Error.UnmarshalType "string"))
    else decodeReqBodyExtBidderMembers rest cur saved

/-- Decodes a value into the field `reqBodyExt.UsEskimiBidderExt`. -/
def decodeReqBodyExtBidder (v : Json) (cur : reqBodyExtBidder) (saved : Option Error) :
    reqBodyExtBidder × Option Error :=
  match v with
  | .obj members => decodeReqBodyExtBidderMembers members cur saved
  | .null => (cur, saved)
  | _ => (cur, saveError saved (Error.UnmarshalType "struct"))

/-- Decodes the members of the top-level object into a `reqBodyExt`, whose one field is
tagged `json:"bidder"`. -/
def decodeReqBodyExtMembers :
    List (String × Json) → reqBodyExt → Option Error → reqBodyExt × Option Error
  | [], cur, saved => (cur, saved)
  | (k, v) :: rest, cur, saved =>
    if foldEq k "bidder" then
      let r := decodeReqBodyExtBidder v cur.UsEskimiBidderExt saved
      decodeReqBodyExtMembers rest { cur with UsEskimiBidderExt := r.1 } r.2
    else decodeReqBodyExtMembers rest cur saved

/-- Modelled from the spec: the deserializing half of the round trip of the vendor
extension, which the package, encoding only, does not contain. It is the call
`json.Unmarshal(data, &v)` on a zero `reqBodyExt`, as the field tags of the type direct
it: the decoded value and the error returned. -/
def UnmarshalReqBodyExt (data : RawMessage) : reqBodyExt × Option Error :=
  let zero : reqBodyExt := { UsEskimiBidderExt := { Type_ := [], PlacementID := [] } }
  match data.parsed with
  | none => (zero, some Error.MalformedJson)
  | some (.obj members) => decodeReqBodyExtMembers members zero none
  | some .null => (zero, none)
  | some _ => (zero, some (Error.UnmarshalType "struct"))

end json

/-! ## The media-type hint of a document, in the words of the spec -/

namespace json

/-- The values that stand for the media-type hint in the members of an extension, in
document order: those under a key equal to `mediaType` up to the case of ASCII letters,
in the object members whose key equals `bidder` up to case. -/
def hintValues : List (String × Json) → List Json
  | [] => []
  | (k, v) :: rest =>
    if foldEq k "Bidder" then
      (match v with
        | .obj inner =>
          (inner.filter (fun kv => foldEq kv.1 "mediaType")).map (fun kv => kv.2)
        | _ => []) ++ hintValues rest
    else hintValues rest

/-- The values of the members whose key equals `bidder` up to case. -/
def bidderValues (members : List (String × Json)) : List Json :=
  (members.filter (fun kv => foldEq kv.1 "Bidder")).map (fun kv => kv.2)

/-- A value that is neither a JSON string nor `null`, such as a number. -/
def notStringOrNull : Json → Bool
  | .str _ => false
  | .null => false
  | _ => true

/-- A value that is neither a JSON object nor `null`. -/
def notObjectOrNull : Json → Bool
  | .obj _ => false
  | .null => false
  | _ => true

/-- The last JSON string of a list of values, `init` when there is none. -/
def lastString (init : String) : List Json → String
  | [] => init
  | .str s :: rest => lastString s rest
  | _ :: rest => lastString init rest

end json

/-! ## Sample values -/

/-- Looks a response body up in a table of decoded responses. -/
def lookupResponse (body : Bytes) : List (Bytes × BidResponse) → Except Error BidResponse
  | [] => .error Error.MalformedJson
  | (b, response) :: rest => if b = body then .ok response else lookupResponse body rest

/-- Text that shows the identifier of an impression and, when its extension has one, the
placement. -/
def renderImp (imp : Imp) : String :=
  match jsonparser.GetString imp.Ext placementPath with
  | .ok p => imp.ID ++ "=" ++ p.toValidText
  | .error _ => imp.ID

/-- A sample extension with a placement and a media-type hint. -/
def sampleExt (placementId mediaType : String) : RawMessage :=
  .doc (.obj [("bidder", .obj [("placementId", .str placementId),
    ("mediaType", .str mediaType)])])

/-- A sample extension whose placement is a number. -/
def sampleNumberExt : RawMessage :=
  .doc (.obj [("bidder", .obj [("placementId", .num "7")])])

/-- A sample impression with the video marker only. -/
def sampleVideoImp (id : String) (ext : RawMessage) : Imp :=
  { ID := id, Banner := none, Video := some ⟨.obj []⟩, Native := none, Ext := ext,
    rest := .obj [] }

/-- A sample impression with the three markers. -/
def sampleAllImp (id : String) (ext : RawMessage) : Imp :=
  { ID := id, Banner := some ⟨.obj []⟩, Video := some ⟨.obj []⟩, Native := some ⟨.obj []⟩,
    Ext := ext, rest := .obj [] }

/-- A sample impression without any marker. -/
def sampleBareImp (id : String) (ext : RawMessage) : Imp :=
  { ID := id, Banner := none, Video := none, Native := none, Ext := ext, rest := .obj [] }

/-- A sample request: two impressions, the second with an empty placement. -/
def sampleRequest : BidRequest :=
  { ID := "auction-1"
    Imp := [sampleVideoImp "imp1" (sampleExt "p-1" "video"),
      sampleAllImp "imp2" (sampleExt "" "banner")]
    rest := .obj [] }

/-- A sample request whose second impression has a number as placement. -/
def sampleBadRequest : BidRequest :=
  { ID := "auction-2"
    Imp := [sampleVideoImp "imp1" (sampleExt "p-1" "video"),
      sampleVideoImp "imp2" sampleNumberExt]
    rest := .obj [] }

/-- A sample request whose second impression has no marker. -/
def sampleBareRequest : BidRequest :=
  { ID := "auction-3"
    Imp := [sampleVideoImp "imp1" (sampleExt "p-1" "video"),
      sampleBareImp "imp3" (sampleExt "p-3" "")]
    rest := .obj [] }

/-- A sample bid on an impression. -/
def sampleBid (id impID : String) : Bid :=
  { ID := id, ImpID := impID, rest := .obj [] }

/-- A sample response with one bid on `imp1` and one on `imp2`. -/
def sampleResponse : BidResponse :=
  { ID := "auction-1"
    SeatBid := [{ Bid := [sampleBid "b1" "imp1"], Seat := "s1" },
      { Bid := [sampleBid "b2" "imp2"], Seat := "s2" }]
    Cur := "EUR" }

/-- A sample response with a bid on `imp1` followed by a bid on `imp3`. -/
def sampleStrayResponse : BidResponse :=
  { ID := "auction-1"
    SeatBid := [{ Bid := [sampleBid "b1" "imp1", sampleBid "b3" "imp3"], Seat := "s1" }]
    Cur := "EUR" }

/-- A sample codec: request bodies show the request and its impressions, response bodies
are looked up in a table of two. -/
def sampleCodec : Codec :=
  { MarshalBidRequest := fun request =>
      .ok (request.ID ++ ":" ++ String.intercalate "," (request.Imp.map renderImp))
    UnmarshalBidResponse := fun body =>
      lookupResponse body [("bids", sampleResponse), ("stray", sampleStrayResponse)] }

/-- A sample adapter, with the endpoint template of the spec. -/
def sampleAdapter : adapter :=
  ⟨"https://x.example/\x7bMediaType\x7d/bid"⟩

/-- The calls `MakeRequests` builds for the sample request. -/
def sampleCalls : List RequestData :=
  [{ Method := "POST"
     Uri := "https://x.example/video/bid"
     Body := "auction-1:imp1=p-1"
     Headers := ⟨[("Content-Type", ["application/json;charset=utf-8"]),
       ("Accept", ["application/json"])]⟩
     ImpIDs := ["imp1"] },
   { Method := "POST"
     Uri := "https://x.example/banner/bid"
     Body := "auction-1:imp2"
     Headers := ⟨[("Content-Type", ["application/json;charset=utf-8"]),
       ("Accept", ["application/json"])]⟩
     ImpIDs := ["imp2"] }]

/-- A sample outbound call, not read by `MakeBids`. -/
def sampleRequestData : RequestData :=
  { Method := "POST", Uri := "", Body := "", Headers := ⟨[]⟩, ImpIDs := [] }

/-- A sample response of the vendor with a status code and a body. -/
def sampleResponseData (status : Int) (body : Bytes) : ResponseData :=
  { StatusCode := status, Body := body, Headers := ⟨[]⟩ }

/-- A sample extension whose hint stands under the key `MediaType`. -/
def sampleCaseExt : RawMessage :=
  .doc (.obj [("bidder", .obj [("placementId", .str "p-1"), ("MediaType", .str "video")])])

/-- A sample request with the one impression whose hint stands under `MediaType`. -/
def sampleCaseRequest : BidRequest :=
  { ID := "auction-4", Imp := [sampleVideoImp "imp1" sampleCaseExt], rest := .obj [] }

/-- A sample extension that lacks its final closing brace. -/
def sampleUnclosedExt : RawMessage :=
  .unclosed [("bidder", .obj [("placementId", .str "x")])]

/-- A sample request with the one impression whose extension lacks its final closing
brace. -/
def sampleUnclosedRequest : BidRequest :=
  { ID := "auction-7", Imp := [sampleVideoImp "imp1" sampleUnclosedExt], rest := .obj [] }

/-- A sample extension whose hint is a number, with a string under the key `MEDIATYPE`
after it. -/
def sampleMixedHintExt : RawMessage :=
  .doc (.obj [("bidder", .obj [("placementId", .str "p-1"), ("mediaType", .num "7"),
    ("MEDIATYPE", .str "video")])])

/-- A sample request with the one impression whose hint is a number followed by a
string. -/
def sampleMixedHintRequest : BidRequest :=
  { ID := "auction-8", Imp := [sampleVideoImp "imp1" sampleMixedHintExt], rest := .obj [] }

/-- A sample extension whose hint is a number. -/
def sampleNumberHintExt : RawMessage :=
  .doc (.obj [("bidder", .obj [("placementId", .str "p-1"), ("mediaType", .num "7")])])

/-- A sample request with the one impression whose hint is a number. -/
def sampleNumberHintRequest : BidRequest :=
  { ID := "auction-5", Imp := [sampleVideoImp "imp1" sampleNumberHintExt], rest := .obj [] }

/-- A sample request with the second impression of the sample request after another
first impression. -/
def sampleOtherRequest : BidRequest :=
  { ID := "auction-1"
    Imp := [sampleBareImp "imp9" (sampleExt "p-9" "native"),
      sampleAllImp "imp2" (sampleExt "" "banner")]
    rest := .obj [] }

/-- A sample request in which two impressions share an identifier, the first of them
without any marker. -/
def sampleTwinRequest : BidRequest :=
  { ID := "auction-6"
    Imp := [sampleBareImp "imp1" (sampleExt "p-1" ""),
      sampleVideoImp "imp1" (sampleExt "p-2" "video")]
    rest := .obj [] }

/-- A sample response with a bid on `imp1`, then bids on `imp7` and `imp8`. -/
def sampleTwoStrayResponse : BidResponse :=
  { ID := "auction-1"
    SeatBid := [{ Bid := [sampleBid "b1" "imp1", sampleBid "b7" "imp7"], Seat := "s1" },
      { Bid := [sampleBid "b8" "imp8"], Seat := "s2" }]
    Cur := "EUR" }

/-- A sample response with one seat-bid without bids and no currency. -/
def sampleNoBidResponse : BidResponse :=
  { ID := "auction-1", SeatBid := [{ Bid := [], Seat := "s1" }], Cur := "" }

/-- A sample codec as `sampleCodec`, with a larger table of response bodies; a request
whose `ID` is empty is not encoded. -/
def sampleTableCodec : Codec :=
  { MarshalBidRequest := fun request =>
      if request.ID = "" then .error (Error.Codec "no id")
      else .ok (request.ID ++ ":" ++ String.intercalate "," (request.Imp.map renderImp))
    UnmarshalBidResponse := fun body =>
      lookupResponse body [("bids", sampleResponse), ("stray", sampleStrayResponse),
        ("two-stray", sampleTwoStrayResponse), ("no-bid", sampleNoBidResponse)] }

/-! ## Properties of the request fan-out -/

theorem singleImpRequest_update (request : BidRequest) (imps : List Imp) (imp : Imp)
    (ext : RawMessage) :
    singleImpRequest { request with Imp := imps } imp ext = singleImpRequest request imp ext :=
  rfl

theorem iterationCall_update (C : Codec) (a : adapter) (request : BidRequest)
    (imps : List Imp) (imp : Imp) :
    iterationCall C a { request with Imp := imps } imp = iterationCall C a request imp :=
  rfl

theorem iterationCalls_update (C : Codec) (a : adapter) (request : BidRequest)
    (imps : List Imp) (l : List Imp) :
    iterationCalls C a { request with Imp := imps } l = iterationCalls C a request l := by
  induction l with
  | nil => rfl
  | cons imp rest ih => simp only [iterationCalls, ih, iterationCall_update]

/-- The loop of `MakeRequests` returns the calls of its iterations after the calls it was
given, or nothing and the first error. -/
theorem makeRequestsLoop_eq (C : Codec) (a : adapter) (l : List Imp) :
    ∀ (reqCopy : BidRequest) (acc : List RequestData),
      a.makeRequestsLoop C reqCopy l acc =
        match iterationCalls C a reqCopy l with
        | .error err => (none, some [err])
        | .ok calls => (some (acc ++ calls), none) := by
  induction l with
  | nil => intro reqCopy acc; simp [adapter.makeRequestsLoop, iterationCalls]
  | cons imp rest ih =>
    intro reqCopy acc
    simp only [adapter.makeRequestsLoop, iterationCalls, iterationCall, placementPath]
    cases hg : jsonparser.GetString imp.Ext ["bidder", "placementId"] with
    | error err => rfl
    | ok p =>
      simp only [json.MarshalReqBodyExt, adapter.makeRequest, singleImpRequest]
      cases hm : C.MarshalBidRequest
          { reqCopy with Imp := [{ imp with Ext := .doc (.obj [("bidder",
            json.encodeReqBodyExtBidder { PlacementID := p, Type_ := GoString.ofText "publisher" })]) }] } with
      | error err => simp [hm]
      | ok body =>
        simp only [hm]
        rw [ih]
        have hu := iterationCalls_update C a reqCopy
          [{ imp with Ext := .doc (.obj [("bidder",
            json.encodeReqBodyExtBidder { PlacementID := p, Type_ := GoString.ofText "publisher" })]) }] rest
        simp only [] at hu
        rw [hu]
        cases iterationCalls C a reqCopy rest with
        | error err => rfl
        | ok calls => simp [GetImpIDs, Header.Add, Header.addEntry]

theorem MakeRequests_eq (C : Codec) (a : adapter) (request : BidRequest) :
    a.MakeRequests C request =
      match iterationCalls C a request request.Imp with
      | .error err => (none, some [err])
      | .ok calls => (some calls, none) := by
  rw [adapter.MakeRequests, makeRequestsLoop_eq]
  cases iterationCalls C a request request.Imp <;> simp

/-- When every iteration succeeds, the calls pair off with the impressions in order. -/
theorem iterationCalls_ok (C : Codec) (a : adapter) (request : BidRequest) :
    ∀ (l : List Imp) (calls : List RequestData), iterationCalls C a request l = .ok calls →
      List.Forall₂ (fun imp call => iterationCall C a request imp = .ok call) l calls := by
  intro l
  induction l with
  | nil =>
    intro calls h
    simp only [iterationCalls, Except.ok.injEq] at h
    subst h
    exact List.Forall₂.nil
  | cons imp rest ih =>
    intro calls h
    simp only [iterationCalls] at h
    cases hc : iterationCall C a request imp with
    | error err => simp [hc] at h
    | ok call =>
      cases hr : iterationCalls C a request rest with
      | error err => simp [hc, hr] at h
      | ok cs =>
        simp only [hc, hr, Except.ok.injEq] at h
        subst h
        exact List.Forall₂.cons hc (ih cs hr)

/-- The iterations all succeed when each of them does. -/
theorem iterationCalls_of_forall (C : Codec) (a : adapter) (request : BidRequest) :
    ∀ (l : List Imp), (∀ imp ∈ l, ∃ call, iterationCall C a request imp = .ok call) →
      ∃ calls, iterationCalls C a request l = .ok calls := by
  intro l
  induction l with
  | nil => intro _; exact ⟨[], rfl⟩
  | cons imp rest ih =>
    intro h
    obtain ⟨call, hc⟩ := h imp (List.mem_cons_self _ _)
    obtain ⟨cs, hr⟩ := ih (fun i hi => h i (List.mem_cons_of_mem _ hi))
    exact ⟨call :: cs, by simp [iterationCalls, hc, hr]⟩

/-- One failing iteration makes the whole sequence fail. -/
theorem iterationCalls_of_exists (C : Codec) (a : adapter) (request : BidRequest) :
    ∀ (l : List Imp), (∃ imp ∈ l, ∃ err, iterationCall C a request imp = .error err) →
      ∃ err, iterationCalls C a request l = .error err := by
  intro l
  induction l with
  | nil => intro h; obtain ⟨imp, hmem, _⟩ := h; cases hmem
  | cons imp rest ih =>
    intro h
    simp only [iterationCalls]
    cases hc : iterationCall C a request imp with
    | error err => exact ⟨err, rfl⟩
    | ok call =>
      obtain ⟨i, hi, e, he⟩ := h
      rcases List.mem_cons.mp hi with hEq | hmem
      · subst hEq; rw [hc] at he; cases he
      · obtain ⟨err, hr⟩ := ih ⟨i, hmem, e, he⟩
        exact ⟨err, by simp [hr]⟩

/-- The text written for the Go string that holds a text is that text. -/
theorem toValidText_ofText (s : String) : (GoString.ofText s).toValidText = s := by
  apply String.ext
  simp only [GoString.toValidText, GoString.ofText, List.map_map]
  induction s.data with
  | nil => rfl
  | cons c cs ih => rw [List.map_cons, ih]; rfl

/-- The Go string that holds a text is empty exactly when the text is. -/
theorem ofText_eq_nil_iff (s : String) : GoString.ofText s = [] ↔ s = "" := by
  unfold GoString.ofText
  rw [List.map_eq_nil_iff]
  constructor
  · intro h
    exact String.ext h
  · intro h
    rw [h]

/-- The string read by `jsonparser.GetString` is the string at which the scan of the
extension stops. -/
theorem GetString_ok_iff (data : RawMessage) (keys : List String) (g : GoString) :
    jsonparser.GetString data keys = .ok g ↔
      ∃ j p, data.scanned = some j ∧ j.scanPath keys = some (.str p) ∧
        g = GoString.ofText p := by
  unfold jsonparser.GetString
  cases hs : data.scanned with
  | none => simp
  | some j =>
    dsimp only
    constructor
    · intro h
      cases hp : j.scanPath keys with
      | none => rw [hp] at h; cases h
      | some v =>
        rw [hp] at h
        cases v with
        | str s => exact ⟨j, s, rfl, hp, (Except.ok.inj h).symm⟩
        | null => cases h
        | bool b => cases h
        | num n => cases h
        | arr items => cases h
        | obj members => cases h
    · rintro ⟨j2, x, hj, hx, hg⟩
      cases hj
      simp only [hx, hg]

/-- The impression identifiers of a successful iteration. -/
theorem iterationCall_ImpIDs (C : Codec) (a : adapter) (request : BidRequest) (imp : Imp)
    (call : RequestData) (h : iterationCall C a request imp = .ok call) :
    call.ImpIDs = [imp.ID] := by
  unfold iterationCall at h
  cases hg : jsonparser.GetString imp.Ext placementPath with
  | error err => simp [hg] at h
  | ok p =>
    simp only [hg] at h
    split at h
    · cases h
    · simp only [Except.ok.injEq] at h
      subst h
      rfl

theorem map_ImpIDs_of_forall₂ (C : Codec) (a : adapter) (request : BidRequest)
    (l : List Imp) (calls : List RequestData)
    (h : List.Forall₂ (fun imp call => iterationCall C a request imp = .ok call) l calls) :
    calls.map (fun call => call.ImpIDs) = l.map (fun imp => [imp.ID]) := by
  induction h with
  | nil => rfl
  | cons hc _ ih =>
    simp only [List.map_cons, ih, iterationCall_ImpIDs C a request _ _ hc]

theorem iterationCall_ok_of (C : Codec) (a : adapter) (request : BidRequest) (imp : Imp)
    (hext : ∃ j p, imp.Ext.scanned = some j ∧ j.scanPath ["bidder", "placementId"] = some (.str p))
    (henc : ∀ p ext, jsonparser.GetString imp.Ext ["bidder", "placementId"] = .ok p →
      json.MarshalReqBodyExt
        { UsEskimiBidderExt := { PlacementID := p, Type_ := GoString.ofText "publisher" } } = .ok ext →
      ∃ body, C.MarshalBidRequest { request with Imp := [{ imp with Ext := ext }] } = .ok body) :
    ∃ call, iterationCall C a request imp = .ok call := by
  obtain ⟨j, p, hj, hp⟩ := hext
  have hg : jsonparser.GetString imp.Ext placementPath = .ok (GoString.ofText p) :=
    (GetString_ok_iff _ _ _).mpr ⟨j, p, hj, hp, rfl⟩
  obtain ⟨body, hb⟩ := henc (GoString.ofText p) (.doc (.obj [("bidder",
    json.encodeReqBodyExtBidder
      { PlacementID := GoString.ofText p, Type_ := GoString.ofText "publisher" })])) hg rfl
  unfold iterationCall
  simp only [hg, singleImpRequest, hb]
  exact ⟨_, rfl⟩

/-- C1: when every impression of a request has a string at `bidder.placementId` of its
extension and the request built for each impression encodes, `MakeRequests` returns no
error and one call per impression in request order, the i-th call carrying exactly the
identifier of the i-th impression; with unique impression identifiers the identifier lists
of the calls are pairwise distinct and together list every identifier once. -/
theorem MakeRequests_partition (C : Codec) (a : adapter) (request : BidRequest)
    (hext : ∀ imp ∈ request.Imp, ∃ j p,
      imp.Ext.scanned = some j ∧ j.scanPath ["bidder", "placementId"] = some (.str p))
    (henc : ∀ imp ∈ request.Imp, ∀ p ext,
      jsonparser.GetString imp.Ext ["bidder", "placementId"] = .ok p →
      json.MarshalReqBodyExt
        { UsEskimiBidderExt := { PlacementID := p, Type_ := GoString.ofText "publisher" } } = .ok ext →
      ∃ body, C.MarshalBidRequest { request with Imp := [{ imp with Ext := ext }] } = .ok body) :
    ∃ calls, a.MakeRequests C request = (some calls, none) ∧
      calls.length = request.Imp.length ∧
      calls.map (fun call => call.ImpIDs) = request.Imp.map (fun imp => [imp.ID]) ∧
      ((request.Imp.map (fun imp => imp.ID)).Nodup →
        (calls.map (fun call => call.ImpIDs)).Nodup ∧
        (calls.map (fun call => call.ImpIDs)).flatten = request.Imp.map (fun imp => imp.ID)) := by
  obtain ⟨calls, hcalls⟩ := iterationCalls_of_forall C a request request.Imp
    (fun imp himp => iterationCall_ok_of C a request imp (hext imp himp) (henc imp himp))
  have hmap := map_ImpIDs_of_forall₂ C a request _ _ (iterationCalls_ok C a request _ _ hcalls)
  refine ⟨calls, ?_, ?_, hmap, ?_⟩
  · rw [MakeRequests_eq, hcalls]
  · simpa using congrArg List.length hmap
  · intro hnd
    have hsingle : request.Imp.map (fun imp => [imp.ID]) =
        (request.Imp.map (fun imp => imp.ID)).map (fun x => [x]) := by
      simp [List.map_map, Function.comp_def]
    rw [hmap, hsingle]
    constructor
    · exact hnd.map (fun x y hxy => by simpa using hxy)
    · generalize request.Imp.map (fun imp => imp.ID) = ids
      induction ids with
      | nil => rfl
      | cons x xs ih => simp [ih]

/-- C2 (amended): when the scan of `jsonparser` meets no string at `bidder.placementId` in
the extension of some impression of a request (no value there, a first value there that
is not a string, or an extension without bytes), `MakeRequests` returns a nil list of
calls and exactly one error, wherever that impression stands and whatever the other
impressions are. -/
theorem MakeRequests_fail_fast (C : Codec) (a : adapter) (request : BidRequest)
    (hbad : ∃ imp ∈ request.Imp, ¬ ∃ j p,
      imp.Ext.scanned = some j ∧ j.scanPath ["bidder", "placementId"] = some (.str p)) :
    ∃ err, a.MakeRequests C request = (none, some [err]) := by
  obtain ⟨imp, himp, hno⟩ := hbad
  have hfail : ∃ err, iterationCall C a request imp = .error err := by
    unfold iterationCall
    cases hg : jsonparser.GetString imp.Ext placementPath with
    | error err => exact ⟨err, rfl⟩
    | ok g =>
      exact absurd ((GetString_ok_iff _ _ _).mp hg) (fun ⟨j, p, hj, hp, _⟩ => hno ⟨j, p, hj, hp⟩)
  obtain ⟨err, herr⟩ := iterationCalls_of_exists C a request request.Imp ⟨imp, himp, hfail⟩
  exact ⟨err, by rw [MakeRequests_eq, herr]⟩

/-! ## Properties of the response mapping -/

/-- The error `getMediaTypeForImp` returns for an impression identifier. -/
theorem getMediaTypeForImp_error_form (impID : String) (imps : List Imp) :
    (getMediaTypeForImp impID imps).2 = none ∨
      getMediaTypeForImp impID imps =
        ("", some (Error.BadInput ("Failed to find impression \"" ++ impID ++ "\""))) := by
  induction imps with
  | nil => right; rfl
  | cons imp rest ih =>
    simp only [getMediaTypeForImp]
    split_ifs <;> first | exact ih | (left; rfl)

/-- An identifier carried by no impression is not resolved. -/
theorem getMediaTypeForImp_unknown (impID : String) (imps : List Imp)
    (h : ∀ imp ∈ imps, imp.ID ≠ impID) :
    getMediaTypeForImp impID imps =
      ("", some (Error.BadInput ("Failed to find impression \"" ++ impID ++ "\""))) := by
  induction imps with
  | nil => rfl
  | cons imp rest ih =>
    have hne : imp.ID ≠ impID := h imp (List.mem_cons_self _ _)
    simp only [getMediaTypeForImp, hne, if_false]
    exact ih (fun i hi => h i (List.mem_cons_of_mem _ hi))

/-- Impressions with another identifier in front of the list are passed over. -/
theorem getMediaTypeForImp_skip (impID : String) (pre imps : List Imp)
    (h : ∀ imp ∈ pre, imp.ID ≠ impID) :
    getMediaTypeForImp impID (pre ++ imps) = getMediaTypeForImp impID imps := by
  induction pre with
  | nil => rfl
  | cons imp rest ih =>
    have hne : imp.ID ≠ impID := h imp (List.mem_cons_self _ _)
    simp only [List.cons_append, getMediaTypeForImp, hne, if_false]
    exact ih (fun i hi => h i (List.mem_cons_of_mem _ hi))

/-- With unique identifiers, an impression without any marker is not resolved. -/
theorem getMediaTypeForImp_markerless (impID : String) (imps : List Imp)
    (hnodup : (imps.map (fun imp => imp.ID)).Nodup) (imp : Imp) (himp : imp ∈ imps)
    (hid : imp.ID = impID) (hb : imp.Banner = none) (hv : imp.Video = none)
    (hn : imp.Native = none) :
    getMediaTypeForImp impID imps =
      ("", some (Error.BadInput ("Failed to find impression \"" ++ impID ++ "\""))) := by
  obtain ⟨pre, post, rfl⟩ := List.append_of_mem himp
  simp only [List.map_append, List.map_cons] at hnodup
  have hpre : ∀ i ∈ pre, i.ID ≠ impID := by
    intro i hi heq
    have hdisj := (List.nodup_append.mp hnodup).2.2
    exact hdisj (List.mem_map_of_mem (fun imp => imp.ID) hi)
      (by rw [heq, ← hid]; exact List.mem_cons_self _ _)
  have hpost : ∀ i ∈ post, i.ID ≠ impID := by
    intro i hi heq
    have hcons := (List.nodup_append.mp hnodup).2.1
    have := (List.nodup_cons.mp hcons).1
    exact this (by rw [hid, ← heq]; exact List.mem_map_of_mem (fun imp => imp.ID) hi)
  rw [getMediaTypeForImp_skip impID pre _ hpre]
  simp only [getMediaTypeForImp, hid, if_true, hb, hv, hn, Option.isSome_none]
  simpa using getMediaTypeForImp_unknown impID post hpost

/-- The inner loop when every bid is resolved. -/
theorem makeBidsInner_ok (imps : List Imp) :
    ∀ (l : List Bid) (acc : List TypedBid),
      (∀ bid ∈ l, (getMediaTypeForImp bid.ImpID imps).2 = none) →
      makeBidsInner imps l acc =
        .ok (acc ++ l.map (fun bid =>
          { Bid := bid, BidType := (getMediaTypeForImp bid.ImpID imps).1 })) := by
  intro l
  induction l with
  | nil => intro acc _; simp [makeBidsInner]
  | cons bid rest ih =>
    intro acc h
    have hb := h bid (List.mem_cons_self _ _)
    unfold makeBidsInner
    cases hg : getMediaTypeForImp bid.ImpID imps with
    | mk bidType err =>
      rw [hg] at hb
      simp only at hb
      subst hb
      simp only []
      rw [ih _ (fun b hb => h b (List.mem_cons_of_mem _ hb))]
      simp [hg]

/-- The inner loop stops with an error at a bid that is not resolved. -/
theorem makeBidsInner_error (imps : List Imp) :
    ∀ (l : List Bid) (acc : List TypedBid),
      (∃ bid ∈ l, (getMediaTypeForImp bid.ImpID imps).2 ≠ none) →
      ∃ err, makeBidsInner imps l acc = .error err := by
  intro l
  induction l with
  | nil => intro acc h; obtain ⟨b, hb, _⟩ := h; cases hb
  | cons bid rest ih =>
    intro acc h
    unfold makeBidsInner
    cases hg : getMediaTypeForImp bid.ImpID imps with
    | mk bidType err =>
      cases err with
      | some e => exact ⟨e, rfl⟩
      | none =>
        simp only []
        apply ih
        obtain ⟨b, hb, hne⟩ := h
        rcases List.mem_cons.mp hb with hEq | hmem
        · subst hEq; rw [hg] at hne; exact absurd rfl hne
        · exact ⟨b, hmem, hne⟩

/-- The two loops of `MakeBids` are one pass over the bids of all seat-bids in order. -/
theorem makeBidsOuter_eq_inner (imps : List Imp) :
    ∀ (l : List SeatBid) (acc : List TypedBid),
      makeBidsOuter imps l acc =
        makeBidsInner imps (l.map (fun seatBid => seatBid.Bid)).flatten acc := by
  have happ : ∀ (l₁ l₂ : List Bid) (acc : List TypedBid),
      makeBidsInner imps (l₁ ++ l₂) acc =
        match makeBidsInner imps l₁ acc with
        | .error err => .error err
        | .ok bids => makeBidsInner imps l₂ bids := by
    intro l₁
    induction l₁ with
    | nil => intro l₂ acc; simp [makeBidsInner]
    | cons bid rest ih =>
      intro l₂ acc
      simp only [List.cons_append, makeBidsInner]
      cases hg : getMediaTypeForImp bid.ImpID imps with
      | mk bidType err =>
        cases err with
        | some e => rfl
        | none => simp only []; exact ih _ _
  intro l
  induction l with
  | nil => intro acc; simp [makeBidsOuter, makeBidsInner]
  | cons seatBid rest ih =>
    intro acc
    simp only [makeBidsOuter, List.map_cons, List.flatten_cons, happ]
    cases makeBidsInner imps seatBid.Bid acc with
    | error err => rfl
    | ok bids => exact ih bids

/-- `MakeBids` on a status-200 response whose body decodes. -/
theorem MakeBids_decoded (C : Codec) (a : adapter) (request : BidRequest)
    (requestData : RequestData) (responseData : ResponseData) (response : BidResponse)
    (hstatus : responseData.StatusCode = 200)
    (hdec : C.UnmarshalBidResponse responseData.Body = .ok response) :
    a.MakeBids C request requestData responseData =
      match makeBidsInner request.Imp
          (response.SeatBid.map (fun seatBid => seatBid.Bid)).flatten [] with
      | .error err => (none, some [err])
      | .ok bids => (some { Currency := response.Cur, Bids := bids }, none) := by
  simp only [adapter.MakeBids, hstatus, hdec, NewBidderResponseWithBidsCapacity,
    makeBidsOuter_eq_inner]
  cases makeBidsInner request.Imp
    (response.SeatBid.map (fun seatBid => seatBid.Bid)).flatten [] <;> simp

/-- `MakeBids` fails as a whole when one bid of the decoded response is not resolved. -/
theorem MakeBids_unresolved (C : Codec) (a : adapter) (request : BidRequest)
    (requestData : RequestData) (responseData : ResponseData) (response : BidResponse)
    (hstatus : responseData.StatusCode = 200)
    (hdec : C.UnmarshalBidResponse responseData.Body = .ok response)
    (hbid : ∃ seatBid ∈ response.SeatBid, ∃ bid ∈ seatBid.Bid,
      (getMediaTypeForImp bid.ImpID request.Imp).2 ≠ none) :
    ∃ err, a.MakeBids C request requestData responseData = (none, some [err]) := by
  obtain ⟨seatBid, hsb, bid, hb, hne⟩ := hbid
  have hmem : bid ∈ (response.SeatBid.map (fun seatBid => seatBid.Bid)).flatten :=
    List.mem_flatten.mpr ⟨seatBid.Bid, List.mem_map_of_mem _ hsb, hb⟩
  obtain ⟨err, herr⟩ := makeBidsInner_error request.Imp _ [] ⟨bid, hmem, hne⟩
  exact ⟨err, by rw [MakeBids_decoded C a request requestData responseData response hstatus hdec,
    herr]⟩

/-- C3: on a status-200 response whose decoded body has a bid whose `impid` is the
identifier of no impression of the request, `MakeBids` returns no bidder response and one
error, whatever the other bids are and wherever that bid stands. -/
theorem MakeBids_unknown_impid (C : Codec) (a : adapter) (request : BidRequest)
    (requestData : RequestData) (responseData : ResponseData) (response : BidResponse)
    (hstatus : responseData.StatusCode = 200)
    (hdec : C.UnmarshalBidResponse responseData.Body = .ok response)
    (hbid : ∃ seatBid ∈ response.SeatBid, ∃ bid ∈ seatBid.Bid,
      ∀ imp ∈ request.Imp, imp.ID ≠ bid.ImpID) :
    ∃ err, a.MakeBids C request requestData responseData = (none, some [err]) := by
  obtain ⟨seatBid, hsb, bid, hb, hno⟩ := hbid
  refine MakeBids_unresolved C a request requestData responseData response hstatus hdec
    ⟨seatBid, hsb, bid, hb, ?_⟩
  rw [getMediaTypeForImp_unknown bid.ImpID request.Imp hno]
  simp

/-- C4: on a status-200 response whose body decodes and whose bids are all resolved by
`getMediaTypeForImp`, `MakeBids` returns no error and one typed bid per bid of the vendor
response, in seat-bid order and then bid order, each with the bid record and the media
type resolved for its `impid`; a bid whose `impid` is `imp1`, the first impression with
that identifier having only the video marker, is typed video. -/
theorem MakeBids_typed_bids (C : Codec) (a : adapter) (request : BidRequest)
    (requestData : RequestData) (responseData : ResponseData) (response : BidResponse)
    (hstatus : responseData.StatusCode = 200)
    (hdec : C.UnmarshalBidResponse responseData.Body = .ok response)
    (hres : ∀ seatBid ∈ response.SeatBid, ∀ bid ∈ seatBid.Bid,
      (getMediaTypeForImp bid.ImpID request.Imp).2 = none) :
    a.MakeBids C request requestData responseData =
        (some { Currency := response.Cur
                Bids := (response.SeatBid.map (fun seatBid => seatBid.Bid)).flatten.map
                  (fun bid => { Bid := bid
                                BidType := (getMediaTypeForImp bid.ImpID request.Imp).1 }) },
          none) ∧
      ∀ (pre post : List Imp) (imp : Imp), request.Imp = pre ++ imp :: post →
        (∀ other ∈ pre, other.ID ≠ "imp1") → imp.ID = "imp1" → imp.Banner = none →
        imp.Video ≠ none → imp.Native = none →
        ∀ seatBid ∈ response.SeatBid, ∀ bid ∈ seatBid.Bid, bid.ImpID = "imp1" →
          (getMediaTypeForImp bid.ImpID request.Imp).1 = BidTypeVideo := by
  constructor
  · rw [MakeBids_decoded C a request requestData responseData response hstatus hdec,
      makeBidsInner_ok]
    · simp
    · intro bid hbid
      obtain ⟨l, hl, hb⟩ := List.mem_flatten.mp hbid
      obtain ⟨seatBid, hsb, rfl⟩ := List.mem_map.mp hl
      exact hres seatBid hsb bid hb
  · intro pre post imp hsplit hpre hid hb hv _ seatBid _ bid _ himpid
    rw [himpid, hsplit, getMediaTypeForImp_skip "imp1" pre _ hpre]
    cases hvid : imp.Video with
    | none => exact absurd hvid hv
    | some v => simp [getMediaTypeForImp, hid, hb, hvid]

/-- C5: in a request with unique impression identifiers, an `impid` that is the identifier
of an impression with none of the three markers makes `getMediaTypeForImp` return the
BadInput error that names it, and makes `MakeBids` return no bidder response and one error
on any status-200 response that has a bid with that `impid`. -/
theorem MakeBids_markerless_impression (request : BidRequest) (impID : String) (imp : Imp)
    (hnodup : (request.Imp.map (fun imp => imp.ID)).Nodup) (himp : imp ∈ request.Imp)
    (hid : imp.ID = impID) (hb : imp.Banner = none) (hv : imp.Video = none)
    (hn : imp.Native = none) :
    getMediaTypeForImp impID request.Imp =
        ("", some (Error.BadInput ("Failed to find impression \"" ++ impID ++ "\""))) ∧
      ∀ (C : Codec) (a : adapter) (requestData : RequestData) (responseData : ResponseData)
        (response : BidResponse), responseData.StatusCode = 200 →
        C.UnmarshalBidResponse responseData.Body = .ok response →
        (∃ seatBid ∈ response.SeatBid, ∃ bid ∈ seatBid.Bid, bid.ImpID = impID) →
        ∃ err, a.MakeBids C request requestData responseData = (none, some [err]) := by
  have hget := getMediaTypeForImp_markerless impID request.Imp hnodup imp himp hid hb hv hn
  refine ⟨hget, ?_⟩
  intro C a requestData responseData response hstatus hdec hbid
  obtain ⟨seatBid, hsb, bid, hbm, hbi⟩ := hbid
  refine MakeBids_unresolved C a request requestData responseData response hstatus hdec
    ⟨seatBid, hsb, bid, hbm, ?_⟩
  rw [hbi, hget]
  simp

/-- C6: the first impression in request order whose identifier is `impID` decides the
classification when it has a marker: banner when its banner marker is set, whatever the
other two; video when it has no banner marker and its video marker is set, whatever the
native marker; native when only its native marker is set. -/
theorem getMediaTypeForImp_priority (impID : String) (pre post : List Imp) (imp : Imp)
    (hpre : ∀ other ∈ pre, other.ID ≠ impID) (hid : imp.ID = impID) :
    (imp.Banner ≠ none →
      getMediaTypeForImp impID (pre ++ imp :: post) = (BidTypeBanner, none)) ∧
    (imp.Banner = none → imp.Video ≠ none →
      getMediaTypeForImp impID (pre ++ imp :: post) = (BidTypeVideo, none)) ∧
    (imp.Banner = none → imp.Video = none → imp.Native ≠ none →
      getMediaTypeForImp impID (pre ++ imp :: post) = (BidTypeNative, none)) := by
  rw [getMediaTypeForImp_skip impID pre _ hpre]
  refine ⟨?_, ?_, ?_⟩
  · intro hb
    cases hban : imp.Banner with
    | none => exact absurd hban hb
    | some b => simp [getMediaTypeForImp, hid, hban]
  · intro hb hv
    cases hvid : imp.Video with
    | none => exact absurd hvid hv
    | some v => simp [getMediaTypeForImp, hid, hb, hvid]
  · intro hb hv hn
    cases hnat : imp.Native with
    | none => exact absurd hnat hn
    | some n => simp [getMediaTypeForImp, hid, hb, hv, hnat]

/-- C7: a response with status code 204 gives a nil bidder response and a nil error list,
whatever the request, the outbound call and the body are. -/
theorem MakeBids_no_content (C : Codec) (a : adapter) (request : BidRequest)
    (requestData : RequestData) (responseData : ResponseData)
    (hstatus : responseData.StatusCode = 204) :
    a.MakeBids C request requestData responseData = (none, none) := by
  simp [adapter.MakeBids, hstatus]

/-- C8: a response whose status code is neither 200 nor 204 gives no bidder response and
exactly one error, a BadServerResponse whose message holds the status code in decimal;
for status 500 the message is the one with 500 in it. -/
theorem MakeBids_unexpected_status (C : Codec) (a : adapter) (request : BidRequest)
    (requestData : RequestData) (responseData : ResponseData)
    (h200 : responseData.StatusCode ≠ 200) (h204 : responseData.StatusCode ≠ 204) :
    a.MakeBids C request requestData responseData =
        (none, some [Error.BadServerResponse
          ("Unexpected status code: " ++ toString responseData.StatusCode ++
            ". Run with request.debug = 1 for more info.")]) ∧
      (responseData.StatusCode = 500 →
        a.MakeBids C request requestData responseData =
          (none, some [Error.BadServerResponse
            "Unexpected status code: 500. Run with request.debug = 1 for more info."])) := by
  have hmain : a.MakeBids C request requestData responseData =
      (none, some [Error.BadServerResponse
        ("Unexpected status code: " ++ toString responseData.StatusCode ++
          ". Run with request.debug = 1 for more info.")]) := by
    simp [adapter.MakeBids, h200, h204]
  refine ⟨hmain, ?_⟩
  intro h500
  have hmsg : "Unexpected status code: " ++ toString (500 : Int) ++
      ". Run with request.debug = 1 for more info." =
      "Unexpected status code: 500. Run with request.debug = 1 for more info." := by decide
  rw [hmain, h500, hmsg]

/-! ## Properties of `strings.Replace` -/

/-- Passing over the rest of a matched occurrence. -/
theorem replaceLoop_skip (old new : List Char) (limit : Option Nat) :
    ∀ (xs r : List Char), strings.replaceLoop old new limit xs.length (xs ++ r) =
      strings.replaceLoop old new limit 0 r := by
  intro xs
  induction xs with
  | nil => intro r; rfl
  | cons x xs ih => intro r; simpa [strings.replaceLoop] using ih r

/-- A token whose first character does not come back in it is no prefix of a non-empty
piece without the token followed by the token. -/
theorem not_prefix_of_piece (c₀ : Char) (w : List Char) (hc : c₀ ∉ w) (x : Char)
    (p r : List Char) (hp : ¬ (c₀ :: w) <:+: (x :: p)) :
    ¬ (c₀ :: w) <+: (x :: p) ++ ((c₀ :: w) ++ r) := by
  intro hpre
  rcases List.prefix_or_prefix_of_prefix hpre (List.prefix_append (x :: p) _) with h | h
  · exact hp h.isInfix
  · obtain ⟨u, hu⟩ := h
    have hpre2 : (x :: p) ++ u <+: (x :: p) ++ ((c₀ :: w) ++ r) := by rw [hu]; exact hpre
    have hu2 : u <+: (c₀ :: w) ++ r := (List.prefix_append_right_inj (x :: p)).mp hpre2
    cases u with
    | nil =>
      apply hp
      rw [List.append_nil] at hu
      rw [hu]
    | cons y u =>
      have hy : y = c₀ := by
        obtain ⟨t, ht⟩ := hu2
        simp only [List.cons_append, List.cons.injEq] at ht
        exact ht.1
      subst hy
      simp only [List.cons_append, List.cons.injEq] at hu
      apply hc
      rw [← hu.2]
      simp

/-- One step of the scan at a character where the token does not start. -/
theorem replaceLoop_cons_of_mismatch (old new : List Char) (hold : old ≠ []) (c : Char)
    (cs : List Char) (h : old.isPrefixOf (c :: cs) = false) :
    strings.replaceLoop old new none 0 (c :: cs) =
      c :: strings.replaceLoop old new none 0 cs := by
  rw [strings.replaceLoop, if_neg (by simp), if_neg hold, h]
  rfl

/-- One step of the scan at a character where the token starts. -/
theorem replaceLoop_cons_of_match (old new : List Char) (hold : old ≠ []) (c : Char)
    (cs : List Char) (h : old.isPrefixOf (c :: cs) = true) :
    strings.replaceLoop old new none 0 (c :: cs) =
      new ++ strings.replaceLoop old new none (old.length - 1) cs := by
  rw [strings.replaceLoop, if_neg (by simp), if_neg hold, h]
  rfl

/-- A piece without the token, followed by the token, is copied and the token replaced. -/
theorem replaceLoop_piece_token (c₀ : Char) (w new : List Char) (hc : c₀ ∉ w) :
    ∀ (p r : List Char), ¬ (c₀ :: w) <:+: p →
      strings.replaceLoop (c₀ :: w) new none 0 (p ++ ((c₀ :: w) ++ r)) =
        p ++ (new ++ strings.replaceLoop (c₀ :: w) new none 0 r) := by
  intro p
  induction p with
  | nil =>
    intro r _
    have hpre : (c₀ :: w).isPrefixOf (c₀ :: (w ++ r)) = true := by
      rw [List.isPrefixOf_iff_prefix]
      exact List.prefix_append (c₀ :: w) r
    rw [List.nil_append, List.cons_append,
      replaceLoop_cons_of_match _ _ (List.cons_ne_nil _ _) _ _ hpre, List.length_cons,
      Nat.add_sub_cancel, replaceLoop_skip]
    rfl
  | cons x p ih =>
    intro r hp
    have hnot : (c₀ :: w).isPrefixOf (x :: (p ++ ((c₀ :: w) ++ r))) = false := by
      rw [Bool.eq_false_iff]
      intro h
      rw [List.isPrefixOf_iff_prefix] at h
      exact not_prefix_of_piece c₀ w hc x p r hp h
    have hp2 : ¬ (c₀ :: w) <:+: p := fun h => hp (h.trans (List.suffix_cons x p).isInfix)
    rw [List.cons_append, replaceLoop_cons_of_mismatch _ _ (List.cons_ne_nil _ _) _ _ hnot,
      ih r hp2]
    rfl

/-- A piece without the token at the end of the string is copied. -/
theorem replaceLoop_piece (c₀ : Char) (w new : List Char) :
    ∀ (p : List Char), ¬ (c₀ :: w) <:+: p →
      strings.replaceLoop (c₀ :: w) new none 0 p = p := by
  intro p
  induction p with
  | nil => intro _; simp [strings.replaceLoop]
  | cons x p ih =>
    intro hp
    have hnot : (c₀ :: w).isPrefixOf (x :: p) = false := by
      rw [Bool.eq_false_iff]
      intro h
      rw [List.isPrefixOf_iff_prefix] at h
      exact hp h.isInfix
    have hp2 : ¬ (c₀ :: w) <:+: p := fun h => hp (h.trans (List.suffix_cons x p).isInfix)
    rw [replaceLoop_cons_of_mismatch _ _ (List.cons_ne_nil _ _) _ _ hnot, ih hp2]

/-- The scan replaces the token between the pieces of a string cut at its occurrences. -/
theorem replaceLoop_intercalate (c₀ : Char) (w new : List Char) (hc : c₀ ∉ w) :
    ∀ (pieces : List (List Char)), (∀ piece ∈ pieces, ¬ (c₀ :: w) <:+: piece) →
      strings.replaceLoop (c₀ :: w) new none 0 (List.intercalate (c₀ :: w) pieces) =
        List.intercalate new pieces := by
  intro pieces
  induction pieces with
  | nil => intro _; simp [List.intercalate, strings.replaceLoop]
  | cons p rest ih =>
    intro h
    cases rest with
    | nil =>
      simpa [List.intercalate] using replaceLoop_piece c₀ w new p (h p (List.mem_cons_self _ _))
    | cons q rest =>
      have hrest := ih (fun piece hpiece => h piece (List.mem_cons_of_mem _ hpiece))
      have e1 : List.intercalate (c₀ :: w) (p :: q :: rest) =
          p ++ ((c₀ :: w) ++ List.intercalate (c₀ :: w) (q :: rest)) := by
        simp [List.intercalate]
      have e2 : List.intercalate new (p :: q :: rest) =
          p ++ (new ++ List.intercalate new (q :: rest)) := by
        simp [List.intercalate]
      rw [e1, e2, replaceLoop_piece_token c₀ w new hc p _ (h p (List.mem_cons_self _ _)), hrest]

/-- The call `strings.Replace(s, meditaTypeParam, m, -1)` on a string cut into pieces at
the occurrences of the token puts `m` between the pieces. -/
theorem Replace_meditaTypeParam (s m : String) (pieces : List (List Char))
    (hpieces : ∀ piece ∈ pieces, ¬ meditaTypeParam.data <:+: piece)
    (hs : s.data = List.intercalate meditaTypeParam.data pieces) :
    (strings.Replace s meditaTypeParam m (-1)).data = List.intercalate m.data pieces := by
  unfold strings.Replace
  by_cases hm : meditaTypeParam = m
  · simp only [hm, true_or, if_true]
    rw [hs, hm]
  · have htok : meditaTypeParam.data = '\x7b' :: "MediaType\x7d".data := by decide
    have hc : '\x7b' ∉ "MediaType\x7d".data := by decide
    have hneg : ((-1 : Int) < 0) := by decide
    simp only [hm, false_or, show ¬ ((-1 : Int) = 0) by decide, if_false, hneg, if_true]
    rw [hs, htok]
    rw [htok] at hpieces
    exact replaceLoop_intercalate _ _ _ hc pieces hpieces

/-! ## The body and the URL of each outbound call -/

/-- Related lists are related index by index. -/
theorem forall₂_getElem? {α β : Type} {R : α → β → Prop} {l : List α} {l₂ : List β}
    (h : List.Forall₂ R l l₂) :
    ∀ (i : Nat) (x : α), l[i]? = some x → ∃ y, l₂[i]? = some y ∧ R x y := by
  induction h with
  | nil => intro i x hi; simp at hi
  | cons hxy _ ih =>
    intro i x hi
    cases i with
    | zero =>
      simp only [List.getElem?_cons_zero, Option.some.injEq] at hi
      subst hi
      exact ⟨_, by simp, hxy⟩
    | succ k =>
      simp only [List.getElem?_cons_succ] at hi
      obtain ⟨y, hy, hr⟩ := ih k x hi
      exact ⟨y, by simpa using hy, hr⟩

/-- What a successful iteration read, encoded and built. -/
theorem iterationCall_ok (C : Codec) (a : adapter) (request : BidRequest) (imp : Imp)
    (call : RequestData) (h : iterationCall C a request imp = .ok call) :
    ∃ p, jsonparser.GetString imp.Ext placementPath = .ok p ∧
      C.MarshalBidRequest (singleImpRequest request imp
        (.doc (.obj [("bidder", json.encodeReqBodyExtBidder
          { PlacementID := p, Type_ := GoString.ofText "publisher" })]))) = .ok call.Body ∧
      call.Uri = a.buildEndpointURL imp ∧ call.Method = "POST" ∧
      call.Headers = ⟨[("Content-Type", ["application/json;charset=utf-8"]),
        ("Accept", ["application/json"])]⟩ := by
  unfold iterationCall at h
  cases hg : jsonparser.GetString imp.Ext placementPath with
  | error err => simp [hg] at h
  | ok p =>
    simp only [hg] at h
    cases hm : C.MarshalBidRequest (singleImpRequest request imp
        (.doc (.obj [("bidder", json.encodeReqBodyExtBidder
          { PlacementID := p, Type_ := GoString.ofText "publisher" })]))) with
    | error err => simp [hm] at h
    | ok body =>
      simp only [hm, Except.ok.injEq] at h
      subst h
      exact ⟨p, rfl, hm, rfl, rfl, rfl⟩

/-- A successful `MakeRequests` is a successful sequence of iterations. -/
theorem iterationCalls_of_MakeRequests (C : Codec) (a : adapter) (request : BidRequest)
    (calls : List RequestData) (hok : a.MakeRequests C request = (some calls, none)) :
    iterationCalls C a request request.Imp = .ok calls := by
  rw [MakeRequests_eq] at hok
  cases hc : iterationCalls C a request request.Imp with
  | error err => simp [hc] at hok
  | ok cs =>
    simp only [hc, Prod.mk.injEq, Option.some.injEq, and_true] at hok
    rw [hok]

/-- The call of index `i` of a successful `MakeRequests` is the one built by the iteration
for the impression of index `i`. -/
theorem MakeRequests_call_at (C : Codec) (a : adapter) (request : BidRequest)
    (calls : List RequestData) (hok : a.MakeRequests C request = (some calls, none))
    (i : Nat) (imp : Imp) (hi : request.Imp[i]? = some imp) :
    ∃ call, calls[i]? = some call ∧ iterationCall C a request imp = .ok call :=
  forall₂_getElem? (iterationCalls_ok C a request _ _
    (iterationCalls_of_MakeRequests C a request calls hok)) i imp hi

/-- C9: after a successful `MakeRequests`, the body of the call of index `i` is the
encoding of the request with its impressions replaced by the one impression of index `i`,
all other fields of the request and of the impression kept, and the extension of that
impression replaced by the object with the one member `bidder`, itself an object with
`type` set to `publisher` and `placementId` set to the string `p` read at
`bidder.placementId` of the original extension; when `p` is empty the `placementId`
member is left out. -/
theorem MakeRequests_body (C : Codec) (a : adapter) (request : BidRequest)
    (calls : List RequestData) (hok : a.MakeRequests C request = (some calls, none))
    (i : Nat) (imp : Imp) (hi : request.Imp[i]? = some imp) :
    ∃ j p call, imp.Ext.scanned = some j ∧ j.scanPath ["bidder", "placementId"] = some (.str p) ∧
      calls[i]? = some call ∧
      (p ≠ "" → C.MarshalBidRequest
        { request with
          Imp := [{ imp with
            Ext := .doc (.obj [("bidder",
              .obj [("type", .str "publisher"), ("placementId", .str p)])]) }] } =
          .ok call.Body) ∧
      (p = "" → C.MarshalBidRequest
        { request with
          Imp := [{ imp with
            Ext := .doc (.obj [("bidder", .obj [("type", .str "publisher")])]) }] } =
          .ok call.Body) := by
  obtain ⟨call, hcall, hiter⟩ := MakeRequests_call_at C a request calls hok i imp hi
  obtain ⟨g, hg, hbody, -, -, -⟩ := iterationCall_ok C a request imp call hiter
  obtain ⟨j, p, hj, hp, rfl⟩ := (GetString_ok_iff _ _ _).mp hg
  have hpub : (GoString.ofText "publisher").toValidText = "publisher" :=
    toValidText_ofText "publisher"
  refine ⟨j, p, call, hj, hp, hcall, ?_, ?_⟩
  · intro hne
    have hne2 : GoString.ofText p ≠ [] := fun h => hne ((ofText_eq_nil_iff p).mp h)
    simpa [singleImpRequest, json.encodeReqBodyExtBidder, hne2, hpub, toValidText_ofText]
      using hbody
  · intro he
    have he2 : GoString.ofText p = [] := (ofText_eq_nil_iff p).mpr he
    simpa [singleImpRequest, json.encodeReqBodyExtBidder, he2, hpub] using hbody

/-- C10: after a successful `MakeRequests`, when the original extension of the impression
of index `i` decodes without error with the string `m` at `bidder.mediaType`, the URL of
the call of index `i` is the endpoint template with `m` in the place of every occurrence
of the token and all other characters kept: cut at the occurrences of the token, the
template and the URL have the same pieces. For the template of the spec the URL has
`video` for the hint `video` and nothing for an empty hint, and a template without the
token is the URL. -/
theorem MakeRequests_uri (C : Codec) (a : adapter) (request : BidRequest)
    (calls : List RequestData) (hok : a.MakeRequests C request = (some calls, none))
    (i : Nat) (imp : Imp) (hi : request.Imp[i]? = some imp) (m : String)
    (hm : json.UnmarshalImpExtBidder imp.Ext = ({ Bidder := { MediaType := m } }, none)) :
    ∃ call, calls[i]? = some call ∧
      (∀ pieces : List (List Char),
        (∀ piece ∈ pieces, ¬ meditaTypeParam.data <:+: piece) →
        a.endpoint.data = List.intercalate meditaTypeParam.data pieces →
        call.Uri.data = List.intercalate m.data pieces) ∧
      (a.endpoint = "https://x.example/\x7bMediaType\x7d/bid" →
        (m = "video" → call.Uri = "https://x.example/video/bid") ∧
        (m = "" → call.Uri = "https://x.example//bid")) ∧
      (¬ meditaTypeParam.data <:+: a.endpoint.data → call.Uri = a.endpoint) := by
  obtain ⟨call, hcall, hiter⟩ := MakeRequests_call_at C a request calls hok i imp hi
  obtain ⟨p, -, -, huri, -, -⟩ := iterationCall_ok C a request imp call hiter
  have hrep : call.Uri = strings.Replace a.endpoint meditaTypeParam m (-1) := by
    rw [huri]
    unfold adapter.buildEndpointURL
    simp only [hm]
    by_cases hme : m = ""
    · simp [hme]
    · simp [hme]
  refine ⟨call, hcall, ?_, ?_, ?_⟩
  · intro pieces hpieces hs
    rw [hrep]
    exact Replace_meditaTypeParam a.endpoint m pieces hpieces hs
  · intro hend
    rw [hrep, hend]
    constructor
    · intro hv; rw [hv]; decide
    · intro he; rw [he]; decide
  · intro hno
    have := Replace_meditaTypeParam a.endpoint m [a.endpoint.data]
      (by simpa using hno) (by simp [List.intercalate])
    rw [hrep]
    apply String.ext
    simpa [List.intercalate] using this

/-! ## The properties on the sample values -/

/-- The calls built for the sample request. -/
theorem sampleRequest_calls :
    sampleAdapter.MakeRequests sampleCodec sampleRequest = (some sampleCalls, none) := by
  decide

/-- The fan-out property on the sample request. -/
theorem MakeRequests_partition_witness :
    ∃ calls, sampleAdapter.MakeRequests sampleCodec sampleRequest = (some calls, none) ∧
      calls.length = sampleRequest.Imp.length ∧
      calls.map (fun call => call.ImpIDs) = sampleRequest.Imp.map (fun imp => [imp.ID]) ∧
      ((sampleRequest.Imp.map (fun imp => imp.ID)).Nodup →
        (calls.map (fun call => call.ImpIDs)).Nodup ∧
        (calls.map (fun call => call.ImpIDs)).flatten =
          sampleRequest.Imp.map (fun imp => imp.ID)) :=
  MakeRequests_partition sampleCodec sampleAdapter sampleRequest
    (by
      intro imp himp
      simp only [sampleRequest, List.mem_cons, List.mem_singleton, List.not_mem_nil,
        or_false] at himp
      rcases himp with h | h <;> subst h <;> exact ⟨_, _, rfl, rfl⟩)
    (fun _ _ _ _ _ _ => ⟨_, rfl⟩)

/-- The fail-fast property on the sample request with a number as placement. -/
theorem MakeRequests_fail_fast_witness :
    ∃ err, sampleAdapter.MakeRequests sampleCodec sampleBadRequest = (none, some [err]) :=
  MakeRequests_fail_fast sampleCodec sampleAdapter sampleBadRequest
    ⟨sampleVideoImp "imp2" sampleNumberExt, by simp [sampleBadRequest], by
      rintro ⟨j, p, hj, hp⟩
      simp only [sampleVideoImp, sampleNumberExt, RawMessage.scanned, Option.some.injEq] at hj
      subst hj
      simp [Json.scanPath, Json.firstMatch] at hp⟩

/-- C2, as stated, fails on the sample impression whose extension cannot be parsed, its
final closing brace missing, and in which the scan meets the placement string before the
defect: `encoding/json` rejects the extension, and `MakeRequests` returns the call and no
error. -/
theorem MakeRequests_unparsed_counterexample :
    sampleUnclosedExt.parsed = none ∧
      (json.UnmarshalImpExtBidder sampleUnclosedExt).2 = some Error.MalformedJson ∧
      sampleAdapter.MakeRequests sampleCodec sampleUnclosedRequest =
        (some [{ Method := "POST"
                 Uri := "https://x.example//bid"
                 Body := "auction-7:imp1=x"
                 Headers := ⟨[("Content-Type", ["application/json;charset=utf-8"]),
                   ("Accept", ["application/json"])]⟩
                 ImpIDs := ["imp1"] }], none) := by
  refine ⟨rfl, by decide, by decide⟩

/-- A bid on an impression the sample request does not have. -/
theorem MakeBids_unknown_impid_witness :
    ∃ err, sampleAdapter.MakeBids sampleCodec sampleRequest sampleRequestData
      (sampleResponseData 200 "stray") = (none, some [err]) :=
  MakeBids_unknown_impid sampleCodec sampleAdapter sampleRequest sampleRequestData
    (sampleResponseData 200 "stray") sampleStrayResponse rfl rfl
    ⟨_, List.mem_cons_self _ _, sampleBid "b3" "imp3", by simp, by
      intro imp himp
      simp only [sampleRequest, List.mem_cons, List.mem_singleton, List.not_mem_nil,
        or_false] at himp
      rcases himp with h | h <;> subst h <;> decide⟩

/-- The typed bids of the sample response. -/
theorem MakeBids_typed_bids_witness :
    sampleAdapter.MakeBids sampleCodec sampleRequest sampleRequestData
        (sampleResponseData 200 "bids") =
        (some { Currency := "EUR"
                Bids := [{ Bid := sampleBid "b1" "imp1", BidType := BidTypeVideo },
                  { Bid := sampleBid "b2" "imp2", BidType := BidTypeBanner }] }, none) :=
  (MakeBids_typed_bids sampleCodec sampleAdapter sampleRequest sampleRequestData
    (sampleResponseData 200 "bids") sampleResponse rfl rfl
    (by
      intro seatBid hsb bid hb
      simp only [sampleResponse, List.mem_cons, List.mem_singleton, List.not_mem_nil,
        or_false] at hsb
      rcases hsb with h | h <;> subst h <;>
        simp only [List.mem_singleton] at hb <;> subst hb <;> rfl)).1

/-- A bid on the impression without marker of a sample request. -/
theorem MakeBids_markerless_impression_witness :
    getMediaTypeForImp "imp3" sampleBareRequest.Imp =
        ("", some (Error.BadInput "Failed to find impression \"imp3\"")) ∧
      ∃ err, sampleAdapter.MakeBids sampleCodec sampleBareRequest sampleRequestData
        (sampleResponseData 200 "stray") = (none, some [err]) :=
  have h := MakeBids_markerless_impression sampleBareRequest "imp3"
    (sampleBareImp "imp3" (sampleExt "p-3" "")) (by decide) (by simp [sampleBareRequest])
    rfl rfl rfl rfl
  ⟨h.1, h.2 sampleCodec sampleAdapter sampleRequestData (sampleResponseData 200 "stray")
    sampleStrayResponse rfl rfl
    ⟨_, List.mem_cons_self _ _, sampleBid "b3" "imp3", by simp, rfl⟩⟩

/-- The sample impression with the three markers is classified banner. -/
theorem getMediaTypeForImp_priority_witness :
    getMediaTypeForImp "imp2" sampleRequest.Imp = (BidTypeBanner, none) :=
  (getMediaTypeForImp_priority "imp2" [sampleVideoImp "imp1" (sampleExt "p-1" "video")] []
    (sampleAllImp "imp2" (sampleExt "" "banner"))
    (by intro other hother; simp only [List.mem_singleton] at hother; subst hother; decide)
    rfl).1 (by simp [sampleAllImp])

/-- Status 204 on the sample values. -/
theorem MakeBids_no_content_witness :
    sampleAdapter.MakeBids sampleCodec sampleRequest sampleRequestData
      (sampleResponseData 204 "bids") = (none, none) :=
  MakeBids_no_content sampleCodec sampleAdapter sampleRequest sampleRequestData
    (sampleResponseData 204 "bids") rfl

/-- Status 500 on the sample values. -/
theorem MakeBids_unexpected_status_witness :
    sampleAdapter.MakeBids sampleCodec sampleRequest sampleRequestData
      (sampleResponseData 500 "bids") =
        (none, some [Error.BadServerResponse
          "Unexpected status code: 500. Run with request.debug = 1 for more info."]) :=
  (MakeBids_unexpected_status sampleCodec sampleAdapter sampleRequest sampleRequestData
    (sampleResponseData 500 "bids") (by decide) (by decide)).2 rfl

/-- The body built for the sample impression with an empty placement. -/
theorem MakeRequests_body_witness :
    ∃ j p call, (sampleAllImp "imp2" (sampleExt "" "banner")).Ext.scanned = some j ∧
      j.scanPath ["bidder", "placementId"] = some (.str p) ∧
      sampleCalls[1]? = some call ∧
      (p ≠ "" → sampleCodec.MarshalBidRequest
        { sampleRequest with
          Imp := [{ sampleAllImp "imp2" (sampleExt "" "banner") with
            Ext := .doc (.obj [("bidder",
              .obj [("type", .str "publisher"), ("placementId", .str p)])]) }] } =
          .ok call.Body) ∧
      (p = "" → sampleCodec.MarshalBidRequest
        { sampleRequest with
          Imp := [{ sampleAllImp "imp2" (sampleExt "" "banner") with
            Ext := .doc (.obj [("bidder", .obj [("type", .str "publisher")])]) }] } =
          .ok call.Body) :=
  MakeRequests_body sampleCodec sampleAdapter sampleRequest sampleCalls sampleRequest_calls 1
    (sampleAllImp "imp2" (sampleExt "" "banner")) rfl

/-- The URL built for the sample impression with the hint `video`. -/
theorem MakeRequests_uri_witness :
    ∃ call, sampleCalls[0]? = some call ∧ call.Uri = "https://x.example/video/bid" :=
  have h := MakeRequests_uri sampleCodec sampleAdapter sampleRequest sampleCalls
    sampleRequest_calls 0 (sampleVideoImp "imp1" (sampleExt "p-1" "video")) rfl "video"
    (by decide)
  h.elim (fun call hc => ⟨call, hc.1, (hc.2.2.1 rfl).1 rfl⟩)

/-! ## The media-type hint -/

/-- `MakeRequests` succeeds when every impression has a placement string and the request
built for it encodes. -/
theorem MakeRequests_ok_of (C : Codec) (a : adapter) (request : BidRequest)
    (hext : ∀ imp ∈ request.Imp, ∃ j p,
      imp.Ext.scanned = some j ∧ j.scanPath ["bidder", "placementId"] = some (.str p))
    (henc : ∀ imp ∈ request.Imp, ∀ p ext,
      jsonparser.GetString imp.Ext ["bidder", "placementId"] = .ok p →
      json.MarshalReqBodyExt
        { UsEskimiBidderExt := { PlacementID := p, Type_ := GoString.ofText "publisher" } } = .ok ext →
      ∃ body, C.MarshalBidRequest { request with Imp := [{ imp with Ext := ext }] } = .ok body) :
    ∃ calls, a.MakeRequests C request = (some calls, none) := by
  obtain ⟨calls, hcalls⟩ := iterationCalls_of_forall C a request request.Imp
    (fun imp himp => iterationCall_ok_of C a request imp (hext imp himp) (henc imp himp))
  exact ⟨calls, by rw [MakeRequests_eq, hcalls]⟩

/-- The last string of two lists of values in a row. -/
theorem lastString_append (l₁ l₂ : List Json) :
    ∀ init, json.lastString init (l₁ ++ l₂) = json.lastString (json.lastString init l₁) l₂ := by
  induction l₁ with
  | nil => intro init; rfl
  | cons v rest ih =>
    intro init
    cases v <;> simp only [List.cons_append, json.lastString] <;> exact ih _

/-- What the decoder of the field `Bidder` does with the members of an object: the field
`MediaType` ends as the last string under a matching key, and no error is saved exactly
when none was saved before and every value under a matching key is a string or `null`. -/
theorem decodeBidderMembers_spec :
    ∀ (inner : List (String × Json)) (cur : ImpExtBidderBidder) (saved : Option Error),
      (json.decodeBidderMembers inner cur saved).1.MediaType =
          json.lastString cur.MediaType
            ((inner.filter (fun kv => json.foldEq kv.1 "mediaType")).map (fun kv => kv.2)) ∧
        ((json.decodeBidderMembers inner cur saved).2 = none ↔
          saved = none ∧
            ∀ v ∈ (inner.filter (fun kv => json.foldEq kv.1 "mediaType")).map (fun kv => kv.2),
              json.notStringOrNull v = false) := by
  intro inner
  induction inner with
  | nil => intro cur saved; simp [json.decodeBidderMembers, json.lastString]
  | cons kv rest ih =>
    intro cur saved
    obtain ⟨k, v⟩ := kv
    unfold json.decodeBidderMembers
    by_cases hk : json.foldEq k "mediaType" = true
    · simp only [hk, if_true, List.filter_cons_of_pos, List.map_cons, List.mem_cons,
        forall_eq_or_imp]
      cases v with
      | str s =>
        obtain ⟨h1, h2⟩ := ih { cur with MediaType := s } saved
        simp only [json.lastString, json.notStringOrNull, true_and]
        exact ⟨h1, h2⟩
      | null =>
        obtain ⟨h1, h2⟩ := ih cur saved
        simp only [json.lastString, json.notStringOrNull, true_and]
        exact ⟨h1, h2⟩
      | bool b =>
        obtain ⟨h1, h2⟩ := ih cur (json.saveError saved (Error.UnmarshalType "string"))
        refine ⟨by simpa [json.lastString] using h1, ?_⟩
        rw [h2]
        cases saved <;> simp [json.saveError, json.notStringOrNull]
      | num n =>
        obtain ⟨h1, h2⟩ := ih cur (json.saveError saved (Error.UnmarshalType "string"))
        refine ⟨by simpa [json.lastString] using h1, ?_⟩
        rw [h2]
        cases saved <;> simp [json.saveError, json.notStringOrNull]
      | arr items =>
        obtain ⟨h1, h2⟩ := ih cur (json.saveError saved (Error.UnmarshalType "string"))
        refine ⟨by simpa [json.lastString] using h1, ?_⟩
        rw [h2]
        cases saved <;> simp [json.saveError, json.notStringOrNull]
      | obj ms =>
        obtain ⟨h1, h2⟩ := ih cur (json.saveError saved (Error.UnmarshalType "string"))
        refine ⟨by simpa [json.lastString] using h1, ?_⟩
        rw [h2]
        cases saved <;> simp [json.saveError, json.notStringOrNull]
    · have hk2 : json.foldEq k "mediaType" = false := by simpa using hk
      simp only [hk2, Bool.false_eq_true, if_false]
      have hfil : (((k, v) :: rest).filter (fun kv => json.foldEq kv.1 "mediaType")) =
          rest.filter (fun kv => json.foldEq kv.1 "mediaType") := by
        simp [List.filter_cons, hk2]
      rw [hfil]
      exact ih cur saved

/-- What the decoder of `ImpExtBidder` does with the members of an extension: the field
`MediaType` ends as the last string among the hint values, and no error is saved exactly
when none was saved before, every value under a key matching `Bidder` is an object or
`null`, and every hint value is a string or `null`. -/
theorem decodeImpExtMembers_spec :
    ∀ (members : List (String × Json)) (cur : ImpExtBidder) (saved : Option Error),
      (json.decodeImpExtMembers members cur saved).1.Bidder.MediaType =
          json.lastString cur.Bidder.MediaType (json.hintValues members) ∧
        ((json.decodeImpExtMembers members cur saved).2 = none ↔
          saved = none ∧
            (∀ v ∈ json.bidderValues members, json.notObjectOrNull v = false) ∧
            ∀ v ∈ json.hintValues members, json.notStringOrNull v = false) := by
  intro members
  induction members with
  | nil =>
    intro cur saved
    simp [json.decodeImpExtMembers, json.lastString, json.hintValues, json.bidderValues]
  | cons kv rest ih =>
    intro cur saved
    obtain ⟨k, v⟩ := kv
    unfold json.decodeImpExtMembers
    by_cases hk : json.foldEq k "Bidder" = true
    · have hbv : json.bidderValues ((k, v) :: rest) = v :: json.bidderValues rest := by
        simp [json.bidderValues, List.filter_cons, hk]
      simp only [hk, if_true, hbv, List.mem_cons, forall_eq_or_imp]
      cases v with
      | obj inner =>
        obtain ⟨h1, h2⟩ := decodeBidderMembers_spec inner cur.Bidder saved
        obtain ⟨i1, i2⟩ := ih { cur with Bidder := (json.decodeBidder (.obj inner) cur.Bidder saved).1 }
          (json.decodeBidder (.obj inner) cur.Bidder saved).2
        have hhv : json.hintValues ((k, Json.obj inner) :: rest) =
            (inner.filter (fun kv => json.foldEq kv.1 "mediaType")).map (fun kv => kv.2) ++
              json.hintValues rest := by
          simp [json.hintValues, hk]
        rw [hhv, lastString_append]
        refine ⟨?_, ?_⟩
        · rw [i1]
          simp only [json.decodeBidder]
          rw [h1]
        · rw [i2]
          simp only [json.decodeBidder, h2, json.notObjectOrNull, true_and, List.mem_append]
          constructor
          · rintro ⟨⟨hs, hin⟩, hb, hh⟩
            exact ⟨hs, hb, fun v hv => hv.elim (hin v) (hh v)⟩
          · rintro ⟨hs, hb, hh⟩
            exact ⟨⟨hs, fun v hv => hh v (Or.inl hv)⟩, hb, fun v hv => hh v (Or.inr hv)⟩
      | null =>
        obtain ⟨i1, i2⟩ := ih { cur with Bidder := cur.Bidder } saved
        have hhv : json.hintValues ((k, Json.null) :: rest) = json.hintValues rest := by
          simp [json.hintValues, hk]
        rw [hhv]
        simp only [json.decodeBidder, json.notObjectOrNull, true_and]
        exact ⟨i1, i2⟩
      | bool b =>
        obtain ⟨i1, i2⟩ := ih { cur with Bidder := cur.Bidder }
          (json.saveError saved (Error.UnmarshalType "struct"))
        have hhv : json.hintValues ((k, Json.bool b) :: rest) = json.hintValues rest := by
          simp [json.hintValues, hk]
        rw [hhv]
        simp only [json.decodeBidder, json.notObjectOrNull]
        refine ⟨i1, ?_⟩
        rw [i2]
        cases saved <;> simp [json.saveError]
      | num n =>
        obtain ⟨i1, i2⟩ := ih { cur with Bidder := cur.Bidder }
          (json.saveError saved (Error.UnmarshalType "struct"))
        have hhv : json.hintValues ((k, Json.num n) :: rest) = json.hintValues rest := by
          simp [json.hintValues, hk]
        rw [hhv]
        simp only [json.decodeBidder, json.notObjectOrNull]
        refine ⟨i1, ?_⟩
        rw [i2]
        cases saved <;> simp [json.saveError]
      | str s =>
        obtain ⟨i1, i2⟩ := ih { cur with Bidder := cur.Bidder }
          (json.saveError saved (Error.UnmarshalType "struct"))
        have hhv : json.hintValues ((k, Json.str s) :: rest) = json.hintValues rest := by
          simp [json.hintValues, hk]
        rw [hhv]
        simp only [json.decodeBidder, json.notObjectOrNull]
        refine ⟨i1, ?_⟩
        rw [i2]
        cases saved <;> simp [json.saveError]
      | arr items =>
        obtain ⟨i1, i2⟩ := ih { cur with Bidder := cur.Bidder }
          (json.saveError saved (Error.UnmarshalType "struct"))
        have hhv : json.hintValues ((k, Json.arr items) :: rest) = json.hintValues rest := by
          simp [json.hintValues, hk]
        rw [hhv]
        simp only [json.decodeBidder, json.notObjectOrNull]
        refine ⟨i1, ?_⟩
        rw [i2]
        cases saved <;> simp [json.saveError]
    · have hk2 : json.foldEq k "Bidder" = false := by simpa using hk
      have hbv : json.bidderValues ((k, v) :: rest) = json.bidderValues rest := by
        simp [json.bidderValues, List.filter_cons, hk2]
      have hhv : json.hintValues ((k, v) :: rest) = json.hintValues rest := by
        simp [json.hintValues, hk2]
      simp only [hk2, Bool.false_eq_true, if_false, hbv, hhv]
      exact ih cur saved

/-- The URL built for an impression whose extension is an object: the hint is empty when
the decoder meets a type error, and the last string among the hint values otherwise. -/
theorem buildEndpointURL_doc (a : adapter) (imp : Imp) (members : List (String × Json))
    (hext : imp.Ext = .doc (.obj members)) :
    (((∃ v ∈ json.bidderValues members, json.notObjectOrNull v = true) ∨
        (∃ v ∈ json.hintValues members, json.notStringOrNull v = true) ∨
        json.lastString "" (json.hintValues members) = "") →
      a.buildEndpointURL imp = strings.Replace a.endpoint meditaTypeParam "" (-1)) ∧
    ((∀ v ∈ json.bidderValues members, json.notObjectOrNull v = false) →
      (∀ v ∈ json.hintValues members, json.notStringOrNull v = false) →
      a.buildEndpointURL imp =
        strings.Replace a.endpoint meditaTypeParam
          (json.lastString "" (json.hintValues members)) (-1)) := by
  obtain ⟨h1, h2⟩ := decodeImpExtMembers_spec members { Bidder := { MediaType := "" } } none
  have hdec : json.UnmarshalImpExtBidder imp.Ext =
      json.decodeImpExtMembers members { Bidder := { MediaType := "" } } none := by
    rw [hext]
    rfl
  simp only [true_and] at h2
  constructor
  · intro h
    unfold adapter.buildEndpointURL
    rw [hdec]
    rcases h with ⟨v, hv, hbad⟩ | ⟨v, hv, hbad⟩ | hlast
    · have herr : (json.decodeImpExtMembers members { Bidder := { MediaType := "" } } none).2 ≠
          none := by
        intro hnone
        have := (h2.mp hnone).1 v hv
        rw [hbad] at this
        cases this
      simp [herr]
    · have herr : (json.decodeImpExtMembers members { Bidder := { MediaType := "" } } none).2 ≠
          none := by
        intro hnone
        have := (h2.mp hnone).2 v hv
        rw [hbad] at this
        cases this
      simp [herr]
    · have hmt : (json.decodeImpExtMembers members
          { Bidder := { MediaType := "" } } none).1.Bidder.MediaType = "" := by
        rw [h1]
        exact hlast
      simp [hmt]
  · intro hb hh
    unfold adapter.buildEndpointURL
    rw [hdec]
    have hnone : (json.decodeImpExtMembers members { Bidder := { MediaType := "" } } none).2 =
        none := h2.mpr ⟨hb, hh⟩
    simp only [hnone, true_and, h1]
    by_cases hl : json.lastString "" (json.hintValues members) = ""
    · simp [hl]
    · simp [hl]

/-- The URL built for an impression whose extension `encoding/json` does not parse. -/
theorem buildEndpointURL_unparsed (a : adapter) (imp : Imp) (hext : imp.Ext.parsed = none) :
    a.buildEndpointURL imp = strings.Replace a.endpoint meditaTypeParam "" (-1) := by
  unfold adapter.buildEndpointURL json.UnmarshalImpExtBidder
  simp [hext]

/-- C11 (amended): when every impression has a placement string and the request built for
it encodes, `MakeRequests` succeeds whatever the media-type hints are. For an impression
whose extension is not parsed by `encoding/json`, or is an object in which the hint, read
as the decoder reads it (keys `bidder` and `mediaType` matched up to the case of ASCII
letters, the last JSON string kept), is absent or empty, or comes with a value that is
neither a JSON string nor `null` (for example a number), or with a value under `bidder`
that is neither an object nor `null`, the URL of its call is the template with every
token replaced by the empty string. In every other case the hint is the last JSON string
under a matching key. -/
theorem MakeRequests_hint_not_fatal (C : Codec) (a : adapter) (request : BidRequest)
    (hext : ∀ imp ∈ request.Imp, ∃ j p,
      imp.Ext.scanned = some j ∧ j.scanPath ["bidder", "placementId"] = some (.str p))
    (henc : ∀ imp ∈ request.Imp, ∀ p ext,
      jsonparser.GetString imp.Ext ["bidder", "placementId"] = .ok p →
      json.MarshalReqBodyExt
        { UsEskimiBidderExt := { PlacementID := p, Type_ := GoString.ofText "publisher" } } =
          .ok ext →
      ∃ body, C.MarshalBidRequest { request with Imp := [{ imp with Ext := ext }] } = .ok body) :
    ∃ calls, a.MakeRequests C request = (some calls, none) ∧
      ∀ (i : Nat) (imp : Imp), request.Imp[i]? = some imp →
        ∃ call, calls[i]? = some call ∧
          ((imp.Ext.parsed = none ∨
            ∃ members, imp.Ext = .doc (.obj members) ∧
              ((∃ v ∈ json.bidderValues members, json.notObjectOrNull v = true) ∨
                (∃ v ∈ json.hintValues members, json.notStringOrNull v = true) ∨
                json.lastString "" (json.hintValues members) = "")) →
            call.Uri = strings.Replace a.endpoint meditaTypeParam "" (-1) ∧
            ∀ pieces : List (List Char),
              (∀ piece ∈ pieces, ¬ meditaTypeParam.data <:+: piece) →
              a.endpoint.data = List.intercalate meditaTypeParam.data pieces →
              call.Uri.data = List.intercalate [] pieces) ∧
          (∀ members, imp.Ext = .doc (.obj members) →
            (∀ v ∈ json.bidderValues members, json.notObjectOrNull v = false) →
            (∀ v ∈ json.hintValues members, json.notStringOrNull v = false) →
            call.Uri = strings.Replace a.endpoint meditaTypeParam
              (json.lastString "" (json.hintValues members)) (-1)) := by
  obtain ⟨calls, hok⟩ := MakeRequests_ok_of C a request hext henc
  refine ⟨calls, hok, ?_⟩
  intro i imp hi
  obtain ⟨call, hcall, hiter⟩ := MakeRequests_call_at C a request calls hok i imp hi
  obtain ⟨p, -, -, huri, -, -⟩ := iterationCall_ok C a request imp call hiter
  refine ⟨call, hcall, ?_, ?_⟩
  · intro h
    have hrep : call.Uri = strings.Replace a.endpoint meditaTypeParam "" (-1) := by
      rw [huri]
      rcases h with hun | ⟨members, hobj, hcond⟩
      · exact buildEndpointURL_unparsed a imp hun
      · exact (buildEndpointURL_doc a imp members hobj).1 hcond
    refine ⟨hrep, ?_⟩
    intro pieces hpieces hs
    rw [hrep]
    exact Replace_meditaTypeParam a.endpoint "" pieces hpieces hs
  · intro members hobj hb hh
    rw [huri]
    exact (buildEndpointURL_doc a imp members hobj).2 hb hh

/-- C11, as stated, fails on the sample impression whose extension has a placement string
and no member at `bidder.mediaType`, its hint standing under the key `MediaType`: the URL
of its call has the hint `video`, not the empty string. -/
theorem MakeRequests_hint_case_counterexample :
    jsonparser.GetString sampleCaseExt ["bidder", "placementId"] =
        .ok (GoString.ofText "p-1") ∧
      jsonparser.GetString sampleCaseExt ["bidder", "mediaType"] =
        .error Error.KeyPathNotFound ∧
      sampleAdapter.MakeRequests sampleCodec sampleCaseRequest =
        (some [{ Method := "POST"
                 Uri := "https://x.example/video/bid"
                 Body := "auction-4:imp1=p-1"
                 Headers := ⟨[("Content-Type", ["application/json;charset=utf-8"]),
                   ("Accept", ["application/json"])]⟩
                 ImpIDs := ["imp1"] }], none) ∧
      strings.Replace sampleAdapter.endpoint meditaTypeParam "" (-1) =
        "https://x.example//bid" ∧
      "https://x.example/video/bid" ≠
        strings.Replace sampleAdapter.endpoint meditaTypeParam "" (-1) := by
  refine ⟨rfl, rfl, by decide, by decide, by decide⟩

/-- The hint that is a number followed by a string under `MEDIATYPE`, on the sample
values: the decoder meets a type error and the hint is empty. -/
theorem MakeRequests_hint_not_fatal_witness :
    ∃ calls call, sampleAdapter.MakeRequests sampleCodec sampleMixedHintRequest =
        (some calls, none) ∧
      calls[0]? = some call ∧ call.Uri = "https://x.example//bid" := by
  obtain ⟨calls, hok, h⟩ := MakeRequests_hint_not_fatal sampleCodec sampleAdapter
    sampleMixedHintRequest
    (by
      intro imp himp
      simp only [sampleMixedHintRequest, List.mem_singleton] at himp
      subst himp
      exact ⟨_, _, rfl, rfl⟩)
    (fun _ _ _ _ _ _ => ⟨_, rfl⟩)
  obtain ⟨call, hcall, hempty, -⟩ := h 0 (sampleVideoImp "imp1" sampleMixedHintExt) rfl
  obtain ⟨huri, -⟩ := hempty (Or.inr ⟨_, rfl, Or.inr (Or.inl ⟨.num "7", by
    have hv : json.hintValues [("bidder", Json.obj [("placementId", .str "p-1"),
        ("mediaType", .num "7"), ("MEDIATYPE", .str "video")])] =
        [.num "7", .str "video"] := by
      simp [json.hintValues, List.filter_cons,
        show json.foldEq "bidder" "Bidder" = true by decide,
        show json.foldEq "placementId" "mediaType" = false by decide,
        show json.foldEq "mediaType" "mediaType" = true by decide,
        show json.foldEq "MEDIATYPE" "mediaType" = true by decide]
    rw [hv]
    exact List.mem_cons_self _ _, rfl⟩)⟩)
  exact ⟨calls, call, hok, hcall, by rw [huri]; decide⟩

/-! ## All-or-nothing results, headers and the round trip of the vendor extension -/

/-- Each element of the second of two related lists is related to an element of the
first. -/
theorem forall₂_mem_right {α β : Type} {R : α → β → Prop} {l : List α} {l₂ : List β}
    (h : List.Forall₂ R l l₂) : ∀ y ∈ l₂, ∃ x ∈ l, R x y := by
  induction h with
  | nil => intro y hy; cases hy
  | cons hxy _ ih =>
    intro y hy
    rcases List.mem_cons.mp hy with hEq | hmem
    · subst hEq
      exact ⟨_, List.mem_cons_self _ _, hxy⟩
    · obtain ⟨x, hx, hr⟩ := ih y hmem
      exact ⟨x, List.mem_cons_of_mem _ hx, hr⟩

/-- `MakeBids` on a status-200 response whose body does not decode. -/
theorem MakeBids_decode_error (C : Codec) (a : adapter) (request : BidRequest)
    (requestData : RequestData) (responseData : ResponseData) (err : Error)
    (hstatus : responseData.StatusCode = 200)
    (hdec : C.UnmarshalBidResponse responseData.Body = .error err) :
    a.MakeBids C request requestData responseData = (none, some [err]) := by
  simp [adapter.MakeBids, hstatus, hdec]

/-- C12: `MakeRequests` returns either one call per impression and no error, or no call
and exactly one error; `MakeBids` returns either a bidder response and no error, or on
status 204 neither, or no bidder response and exactly one error, which for a status-200
body that does not decode is the decode error. -/
theorem all_or_nothing (C : Codec) (a : adapter) (request : BidRequest)
    (requestData : RequestData) (responseData : ResponseData) :
    ((∃ calls, a.MakeRequests C request = (some calls, none) ∧
        calls.length = request.Imp.length) ∨
      ∃ err, a.MakeRequests C request = (none, some [err])) ∧
    ((∃ response, a.MakeBids C request requestData responseData = (some response, none)) ∨
      (responseData.StatusCode = 204 ∧
        a.MakeBids C request requestData responseData = (none, none)) ∨
      ∃ err, a.MakeBids C request requestData responseData = (none, some [err])) ∧
    (∀ err, responseData.StatusCode = 200 →
      C.UnmarshalBidResponse responseData.Body = .error err →
      a.MakeBids C request requestData responseData = (none, some [err])) := by
  refine ⟨?_, ?_, ?_⟩
  · rw [MakeRequests_eq]
    cases hc : iterationCalls C a request request.Imp with
    | error err => exact Or.inr ⟨err, rfl⟩
    | ok calls =>
      exact Or.inl ⟨calls, rfl, ((iterationCalls_ok C a request _ _ hc).length_eq).symm⟩
  · by_cases h204 : responseData.StatusCode = 204
    · exact Or.inr (Or.inl ⟨h204, by simp [adapter.MakeBids, h204]⟩)
    · by_cases h200 : responseData.StatusCode = 200
      · cases hdec : C.UnmarshalBidResponse responseData.Body with
        | error err =>
          exact Or.inr (Or.inr ⟨err,
            MakeBids_decode_error C a request requestData responseData err h200 hdec⟩)
        | ok response =>
          rw [MakeBids_decoded C a request requestData responseData response h200 hdec]
          cases makeBidsInner request.Imp
              (response.SeatBid.map (fun seatBid => seatBid.Bid)).flatten [] with
          | error err => exact Or.inr (Or.inr ⟨err, rfl⟩)
          | ok bids => exact Or.inl ⟨_, rfl⟩
      · exact Or.inr (Or.inr ⟨_, by simp [adapter.MakeBids, h204, h200]; rfl⟩)
  · intro err h200 hdec
    exact MakeBids_decode_error C a request requestData responseData err h200 hdec

/-- The body that does not decode, on the sample values. -/
theorem all_or_nothing_witness :
    sampleAdapter.MakeBids sampleTableCodec sampleRequest sampleRequestData
      (sampleResponseData 200 "no such body") = (none, some [Error.MalformedJson]) :=
  (all_or_nothing sampleTableCodec sampleAdapter sampleRequest sampleRequestData
    (sampleResponseData 200 "no such body")).2.2 Error.MalformedJson rfl rfl

/-- C13: every call returned by `MakeRequests` has the method POST and exactly two
headers, `Content-Type` with the one value `application/json;charset=utf-8` and `Accept`
with the one value `application/json`. -/
theorem MakeRequests_method_headers (C : Codec) (a : adapter) (request : BidRequest)
    (calls : List RequestData) (hok : a.MakeRequests C request = (some calls, none)) :
    ∀ call ∈ calls, call.Method = "POST" ∧
      call.Headers.entries = [("Content-Type", ["application/json;charset=utf-8"]),
        ("Accept", ["application/json"])] := by
  intro call hcall
  obtain ⟨imp, -, hiter⟩ := forall₂_mem_right (iterationCalls_ok C a request _ _
    (iterationCalls_of_MakeRequests C a request calls hok)) call hcall
  obtain ⟨p, -, -, -, hmethod, hheaders⟩ := iterationCall_ok C a request imp call hiter
  exact ⟨hmethod, by rw [hheaders]⟩

/-- The method and headers of the calls of the sample request. -/
theorem MakeRequests_method_headers_witness :
    ∃ call, sampleCalls[1]? = some call ∧ call.Method = "POST" ∧
      call.Headers.entries = [("Content-Type", ["application/json;charset=utf-8"]),
        ("Accept", ["application/json"])] :=
  ⟨_, rfl, MakeRequests_method_headers sampleCodec sampleAdapter sampleRequest sampleCalls
    sampleRequest_calls _ (List.mem_cons_of_mem _ (List.mem_cons_self _ _))⟩

/-- A Go string without a byte that is not UTF-8 is the Go string of the text written for
it. -/
theorem ofText_toValidText (p : GoString) (hvalid : ∀ c ∈ p, ∃ r, c = GoChar.rune r) :
    GoString.ofText p.toValidText = p := by
  unfold GoString.ofText GoString.toValidText
  simp only [List.map_map]
  induction p with
  | nil => rfl
  | cons c rest ih =>
    obtain ⟨r, hr⟩ := hvalid c (List.mem_cons_self _ _)
    rw [List.map_cons, ih (fun x hx => hvalid x (List.mem_cons_of_mem _ hx)), hr]
    rfl

/-- Encoding the vendor extension and decoding the result: the placement comes back as
the Go string of the text the encoder wrote for it. -/
theorem UnmarshalReqBodyExt_MarshalReqBodyExt (p : GoString) :
    json.UnmarshalReqBodyExt (.doc (.obj [("bidder", json.encodeReqBodyExtBidder
        { PlacementID := p, Type_ := GoString.ofText "publisher" })])) =
      ({ UsEskimiBidderExt :=
          { PlacementID := GoString.ofText p.toValidText
            Type_ := GoString.ofText "publisher" } }, none) := by
  have h1 : json.foldEq "bidder" "bidder" = true := by decide
  have h2 : json.foldEq "type" "type" = true := by decide
  have h3 : json.foldEq "placementId" "type" = false := by decide
  have h4 : json.foldEq "placementId" "placementId" = true := by decide
  have hpub : (GoString.ofText "publisher").toValidText = "publisher" :=
    toValidText_ofText "publisher"
  by_cases hp : p = []
  · subst hp
    simp [json.UnmarshalReqBodyExt, RawMessage.parsed, json.decodeReqBodyExtMembers,
      json.decodeReqBodyExtBidder, json.decodeReqBodyExtBidderMembers,
      json.encodeReqBodyExtBidder, h1, h2, hpub]
    rfl
  · simp [json.UnmarshalReqBodyExt, RawMessage.parsed, json.decodeReqBodyExtMembers,
      json.decodeReqBodyExtBidder, json.decodeReqBodyExtBidderMembers,
      json.encodeReqBodyExtBidder, h1, h2, h3, h4, hp, hpub]

/-- C14 (amended): for every placement string `p`, encoding the vendor extension with
`Type` publisher and `PlacementID` `p` and decoding the result into a `reqBodyExt` gives,
without error, `Type` publisher and `PlacementID` `p` with U+FFFD in the place of every
byte that is not UTF-8; so for every `p` that is valid UTF-8, the empty string included
(its `placementId` member is left out), the round trip gives back `p`. -/
theorem reqBodyExt_round_trip (p : GoString) :
    ∃ data, json.MarshalReqBodyExt
        { UsEskimiBidderExt :=
          { PlacementID := p, Type_ := GoString.ofText "publisher" } } = .ok data ∧
      json.UnmarshalReqBodyExt data =
        ({ UsEskimiBidderExt :=
            { PlacementID := GoString.ofText p.toValidText
              Type_ := GoString.ofText "publisher" } }, none) ∧
      ((∀ c ∈ p, ∃ r, c = GoChar.rune r) →
        json.UnmarshalReqBodyExt data =
          ({ UsEskimiBidderExt :=
              { PlacementID := p, Type_ := GoString.ofText "publisher" } }, none)) := by
  refine ⟨_, rfl, UnmarshalReqBodyExt_MarshalReqBodyExt p, ?_⟩
  intro hvalid
  rw [UnmarshalReqBodyExt_MarshalReqBodyExt p, ofText_toValidText p hvalid]

/-- C14, as stated, fails for the placement string that is the one byte 0xFF: the encoder
writes U+FFFD for it, and the decoded `PlacementID` is that character, not the byte. -/
theorem reqBodyExt_round_trip_counterexample :
    ∃ data, json.MarshalReqBodyExt
        { UsEskimiBidderExt :=
          { PlacementID := [GoChar.invalid 0xFF], Type_ := GoString.ofText "publisher" } } =
          .ok data ∧
      json.UnmarshalReqBodyExt data =
        ({ UsEskimiBidderExt :=
            { PlacementID := [GoChar.rune (Char.ofNat 0xFFFD)]
              Type_ := GoString.ofText "publisher" } }, none) ∧
      [GoChar.rune (Char.ofNat 0xFFFD)] ≠ [GoChar.invalid 0xFF] :=
  ⟨_, rfl, by decide, by decide⟩

/-- The round trip of the empty placement and of a placement that is a text. -/
theorem reqBodyExt_round_trip_witness :
    json.UnmarshalReqBodyExt (.doc (.obj [("bidder", .obj [("type", .str "publisher")])])) =
        ({ UsEskimiBidderExt :=
            { PlacementID := [], Type_ := GoString.ofText "publisher" } }, none) ∧
      json.UnmarshalReqBodyExt (.doc (.obj [("bidder",
          .obj [("type", .str "publisher"), ("placementId", .str "p-1")])])) =
        ({ UsEskimiBidderExt :=
            { PlacementID := GoString.ofText "p-1"
              Type_ := GoString.ofText "publisher" } }, none) :=
  ⟨(reqBodyExt_round_trip []).elim (fun data h => by
      have hd := h.1
      simp only [json.MarshalReqBodyExt, Except.ok.injEq] at hd
      subst hd
      exact h.2.2 (fun c hc => by cases hc)),
    (reqBodyExt_round_trip (GoString.ofText "p-1")).elim (fun data h => by
      have hd := h.1
      simp only [json.MarshalReqBodyExt, Except.ok.injEq] at hd
      subst hd
      exact h.2.2 (fun c hc => by
        simp only [GoString.ofText, List.mem_map] at hc
        obtain ⟨r, -, hr⟩ := hc
        exact ⟨r, hr.symm⟩))⟩

/-! ## Currency, independence of the impressions and the order of resolution -/

/-- `MakeBids` on a status-200 response whose body decodes and whose bids all resolve. -/
theorem MakeBids_resolved (C : Codec) (a : adapter) (request : BidRequest)
    (requestData : RequestData) (responseData : ResponseData) (response : BidResponse)
    (hstatus : responseData.StatusCode = 200)
    (hdec : C.UnmarshalBidResponse responseData.Body = .ok response)
    (hres : ∀ seatBid ∈ response.SeatBid, ∀ bid ∈ seatBid.Bid,
      (getMediaTypeForImp bid.ImpID request.Imp).2 = none) :
    a.MakeBids C request requestData responseData =
      (some { Currency := response.Cur
              Bids := (response.SeatBid.map (fun seatBid => seatBid.Bid)).flatten.map
                (fun bid => { Bid := bid
                              BidType := (getMediaTypeForImp bid.ImpID request.Imp).1 }) },
        none) := by
  rw [MakeBids_decoded C a request requestData responseData response hstatus hdec,
    makeBidsInner_ok]
  · simp
  · intro bid hbid
    obtain ⟨l, hl, hb⟩ := List.mem_flatten.mp hbid
    obtain ⟨seatBid, hsb, rfl⟩ := List.mem_map.mp hl
    exact hres seatBid hsb bid hb

/-- C15: on a status-200 response whose body decodes and whose bids all resolve, the
currency of the bidder response is the `cur` field of the vendor response as it is; an
empty `cur` gives the empty string, not a default currency. -/
theorem MakeBids_currency (C : Codec) (a : adapter) (request : BidRequest)
    (requestData : RequestData) (responseData : ResponseData) (response : BidResponse)
    (hstatus : responseData.StatusCode = 200)
    (hdec : C.UnmarshalBidResponse responseData.Body = .ok response)
    (hres : ∀ seatBid ∈ response.SeatBid, ∀ bid ∈ seatBid.Bid,
      (getMediaTypeForImp bid.ImpID request.Imp).2 = none) :
    ∃ bidResponse, a.MakeBids C request requestData responseData = (some bidResponse, none) ∧
      bidResponse.Currency = response.Cur ∧
      (response.Cur = "" → bidResponse.Currency = "") := by
  refine ⟨_, MakeBids_resolved C a request requestData responseData response hstatus hdec hres,
    rfl, ?_⟩
  intro h
  exact h

/-- The empty currency of the sample response without bids. -/
theorem MakeBids_currency_witness :
    ∃ bidResponse, sampleAdapter.MakeBids sampleTableCodec sampleRequest sampleRequestData
        (sampleResponseData 200 "no-bid") = (some bidResponse, none) ∧
      bidResponse.Currency = "" := by
  obtain ⟨r, hr, hcur, -⟩ := MakeBids_currency sampleTableCodec sampleAdapter sampleRequest
    sampleRequestData (sampleResponseData 200 "no-bid") sampleNoBidResponse rfl rfl
    (by
      intro seatBid hsb bid hb
      simp only [sampleNoBidResponse, List.mem_singleton] at hsb
      subst hsb
      cases hb)
  exact ⟨r, hr, hcur⟩

/-- The iteration for an impression reads the request only through the fields other than
the impressions. -/
theorem iterationCall_congr (C : Codec) (a : adapter) (request₁ request₂ : BidRequest)
    (imp : Imp) (hID : request₁.ID = request₂.ID) (hrest : request₁.rest = request₂.rest) :
    iterationCall C a request₁ imp = iterationCall C a request₂ imp := by
  unfold iterationCall singleImpRequest
  rw [hID, hrest]

/-- C16: for two requests on which `MakeRequests` succeeds, that agree on the fields other
than the impressions and have the same impression at index `i`, the calls of index `i`
are the same call, which is also the one call built for the request reduced to that
impression: nothing of the other impressions enters it. -/
theorem MakeRequests_independent (C : Codec) (a : adapter) (request₁ request₂ : BidRequest)
    (calls₁ calls₂ : List RequestData)
    (hok₁ : a.MakeRequests C request₁ = (some calls₁, none))
    (hok₂ : a.MakeRequests C request₂ = (some calls₂, none))
    (hID : request₁.ID = request₂.ID) (hrest : request₁.rest = request₂.rest)
    (i : Nat) (imp : Imp) (hi₁ : request₁.Imp[i]? = some imp)
    (hi₂ : request₂.Imp[i]? = some imp) :
    ∃ call, calls₁[i]? = some call ∧ calls₂[i]? = some call ∧
      a.MakeRequests C { request₁ with Imp := [imp] } = (some [call], none) := by
  obtain ⟨call₁, hcall₁, hiter₁⟩ := MakeRequests_call_at C a request₁ calls₁ hok₁ i imp hi₁
  obtain ⟨call₂, hcall₂, hiter₂⟩ := MakeRequests_call_at C a request₂ calls₂ hok₂ i imp hi₂
  have heq : call₁ = call₂ := by
    rw [iterationCall_congr C a request₁ request₂ imp hID hrest, hiter₂] at hiter₁
    exact (Except.ok.inj hiter₁).symm
  subst heq
  refine ⟨call₁, hcall₁, hcall₂, ?_⟩
  rw [MakeRequests_eq]
  simp only [iterationCalls, iterationCall_update, hiter₁]

/-- The second impression of two sample requests with different first impressions. -/
theorem MakeRequests_independent_witness :
    ∃ call, sampleCalls[1]? = some call ∧
      (sampleAdapter.MakeRequests sampleCodec sampleOtherRequest).1.bind (fun l => l[1]?) =
        some call :=
  have hother : sampleAdapter.MakeRequests sampleCodec sampleOtherRequest =
      (some [{ Method := "POST"
               Uri := "https://x.example/native/bid"
               Body := "auction-1:imp9=p-9"
               Headers := ⟨[("Content-Type", ["application/json;charset=utf-8"]),
                 ("Accept", ["application/json"])]⟩
               ImpIDs := ["imp9"] },
             { Method := "POST"
               Uri := "https://x.example/banner/bid"
               Body := "auction-1:imp2"
               Headers := ⟨[("Content-Type", ["application/json;charset=utf-8"]),
                 ("Accept", ["application/json"])]⟩
               ImpIDs := ["imp2"] }], none) := by decide
  (MakeRequests_independent sampleCodec sampleAdapter sampleRequest sampleOtherRequest
    sampleCalls _ sampleRequest_calls hother rfl rfl 1
    (sampleAllImp "imp2" (sampleExt "" "banner")) rfl rfl).elim
    (fun call h => ⟨call, h.1, by rw [hother]; exact h.2.1⟩)

/-- Impressions in front of the list that have another identifier or no marker are passed
over. -/
theorem getMediaTypeForImp_skip_unmarked (impID : String) (pre imps : List Imp)
    (h : ∀ other ∈ pre, ¬ (other.ID = impID ∧
      (other.Banner.isSome = true ∨ other.Video.isSome = true ∨ other.Native.isSome = true))) :
    getMediaTypeForImp impID (pre ++ imps) = getMediaTypeForImp impID imps := by
  induction pre with
  | nil => rfl
  | cons imp rest ih =>
    have hrest := ih (fun o ho => h o (List.mem_cons_of_mem _ ho))
    have himp := h imp (List.mem_cons_self _ _)
    simp only [List.cons_append, getMediaTypeForImp]
    by_cases hid : imp.ID = impID
    · have hb : imp.Banner.isSome = false := by
        cases hx : imp.Banner.isSome with
        | false => rfl
        | true => exact absurd ⟨hid, Or.inl hx⟩ himp
      have hv : imp.Video.isSome = false := by
        cases hx : imp.Video.isSome with
        | false => rfl
        | true => exact absurd ⟨hid, Or.inr (Or.inl hx)⟩ himp
      have hn : imp.Native.isSome = false := by
        cases hx : imp.Native.isSome with
        | false => rfl
        | true => exact absurd ⟨hid, Or.inr (Or.inr hx)⟩ himp
      simp [hid, hb, hv, hn, hrest]
    · simp [hid, hrest]

/-- The classification at an impression with the identifier and a marker. -/
theorem getMediaTypeForImp_at_marked (impID : String) (imp : Imp) (post : List Imp)
    (hid : imp.ID = impID)
    (hm : imp.Banner.isSome = true ∨ imp.Video.isSome = true ∨ imp.Native.isSome = true) :
    getMediaTypeForImp impID (imp :: post) =
      (if imp.Banner.isSome then BidTypeBanner
        else if imp.Video.isSome then BidTypeVideo else BidTypeNative, none) := by
  simp only [getMediaTypeForImp, hid, if_true]
  cases hb : imp.Banner.isSome with
  | true => simp
  | false =>
    cases hv : imp.Video.isSome with
    | true => simp
    | false =>
      cases hn : imp.Native.isSome with
      | true => simp
      | false => simp [hb, hv, hn] at hm

/-- C17: `getMediaTypeForImp` returns the classification of the first impression in
request order that has the identifier and at least one marker (banner over video over
native), whatever impressions with the identifier and no marker stand before it, and it
returns the BadInput error exactly when no impression has both the identifier and a
marker; a marker-less impression followed by one with the same identifier and the video
marker gives video, not an error. -/
theorem getMediaTypeForImp_first_marked (impID : String) (imps : List Imp) :
    (∀ (pre post : List Imp) (imp : Imp), imps = pre ++ imp :: post →
      (∀ other ∈ pre, ¬ (other.ID = impID ∧ (other.Banner.isSome = true ∨
        other.Video.isSome = true ∨ other.Native.isSome = true))) →
      imp.ID = impID →
      (imp.Banner.isSome = true ∨ imp.Video.isSome = true ∨ imp.Native.isSome = true) →
      getMediaTypeForImp impID imps =
        (if imp.Banner.isSome then BidTypeBanner
          else if imp.Video.isSome then BidTypeVideo else BidTypeNative, none)) ∧
    ((∀ imp ∈ imps, ¬ (imp.ID = impID ∧ (imp.Banner.isSome = true ∨
        imp.Video.isSome = true ∨ imp.Native.isSome = true))) ↔
      getMediaTypeForImp impID imps =
        ("", some (Error.BadInput ("Failed to find impression \"" ++ impID ++ "\"")))) ∧
    (∀ (bare marked : Imp) (post : List Imp), imps = bare :: marked :: post →
      bare.ID = impID → bare.Banner = none → bare.Video = none → bare.Native = none →
      marked.ID = impID → marked.Banner = none → marked.Video.isSome = true →
      getMediaTypeForImp impID imps = (BidTypeVideo, none)) := by
  refine ⟨?_, ⟨?_, ?_⟩, ?_⟩
  · intro pre post imp hsplit hpre hid hm
    rw [hsplit, getMediaTypeForImp_skip_unmarked impID pre _ hpre]
    exact getMediaTypeForImp_at_marked impID imp post hid hm
  · intro hnone
    have := getMediaTypeForImp_skip_unmarked impID imps [] hnone
    rw [List.append_nil] at this
    rw [this]
    rfl
  · intro herr imp himp hboth
    obtain ⟨pre, post, hsplit⟩ := List.append_of_mem himp
    induction pre generalizing imps with
    | nil =>
      rw [hsplit, List.nil_append,
        getMediaTypeForImp_at_marked impID imp post hboth.1 hboth.2] at herr
      simp at herr
    | cons x pre ih =>
      by_cases hx : x.ID = impID ∧ (x.Banner.isSome = true ∨ x.Video.isSome = true ∨
          x.Native.isSome = true)
      · rw [hsplit, List.cons_append,
          getMediaTypeForImp_at_marked impID x _ hx.1 hx.2] at herr
        simp at herr
      · have hskip := getMediaTypeForImp_skip_unmarked impID [x] (pre ++ imp :: post)
          (by intro o ho; simp only [List.mem_singleton] at ho; subst ho; exact hx)
        rw [hsplit, List.cons_append] at herr
        rw [List.singleton_append] at hskip
        rw [hskip] at herr
        exact ih (pre ++ imp :: post) herr (by simp) rfl
  · intro bare marked post hsplit hbid hbb hbv hbn hmid hmb hmv
    have hskip := getMediaTypeForImp_skip_unmarked impID [bare] (marked :: post)
      (by
        intro o ho
        simp only [List.mem_singleton] at ho
        subst ho
        simp [hbb, hbv, hbn])
    rw [List.singleton_append] at hskip
    rw [hsplit, hskip, getMediaTypeForImp_at_marked impID marked post hmid (Or.inr (Or.inl hmv)),
      hmb, hmv]
    rfl

/-- The two sample impressions with one identifier, the first without marker. -/
theorem getMediaTypeForImp_first_marked_witness :
    getMediaTypeForImp "imp1" sampleTwinRequest.Imp = (BidTypeVideo, none) :=
  (getMediaTypeForImp_first_marked "imp1" sampleTwinRequest.Imp).2.2
    (sampleBareImp "imp1" (sampleExt "p-1" "")) (sampleVideoImp "imp1" (sampleExt "p-2" "video"))
    [] rfl rfl rfl rfl rfl rfl rfl rfl

/-- The inner loop stops at the first bid that is not resolved, with its error. -/
theorem makeBidsInner_first_error (imps : List Imp) (bid : Bid) (post : List Bid)
    (bidType : BidType) (err : Error)
    (hbid : getMediaTypeForImp bid.ImpID imps = (bidType, some err)) :
    ∀ (pre : List Bid) (acc : List TypedBid),
      (∀ b ∈ pre, (getMediaTypeForImp b.ImpID imps).2 = none) →
      makeBidsInner imps (pre ++ bid :: post) acc = .error err := by
  intro pre
  induction pre with
  | nil => intro acc _; simp [makeBidsInner, hbid]
  | cons b rest ih =>
    intro acc h
    have hb := h b (List.mem_cons_self _ _)
    simp only [List.cons_append, makeBidsInner]
    cases hg : getMediaTypeForImp b.ImpID imps with
    | mk t e =>
      rw [hg] at hb
      simp only at hb
      subst hb
      exact ih _ (fun x hx => h x (List.mem_cons_of_mem _ hx))

/-- C18: on a status-200 response whose body decodes, when the bids of all seat-bids taken
in order are resolved up to a bid that is not, `MakeBids` returns no bidder response and
the one BadInput error that names the `impid` of that bid, whatever the bids after it are
and however many of them are not resolved either. -/
theorem MakeBids_first_unresolved (C : Codec) (a : adapter) (request : BidRequest)
    (requestData : RequestData) (responseData : ResponseData) (response : BidResponse)
    (hstatus : responseData.StatusCode = 200)
    (hdec : C.UnmarshalBidResponse responseData.Body = .ok response)
    (pre post : List Bid) (bid : Bid)
    (hsplit : (response.SeatBid.map (fun seatBid => seatBid.Bid)).flatten = pre ++ bid :: post)
    (hpre : ∀ b ∈ pre, (getMediaTypeForImp b.ImpID request.Imp).2 = none)
    (hbid : (getMediaTypeForImp bid.ImpID request.Imp).2 ≠ none) :
    a.MakeBids C request requestData responseData =
      (none, some [Error.BadInput ("Failed to find impression \"" ++ bid.ImpID ++ "\"")]) := by
  rcases getMediaTypeForImp_error_form bid.ImpID request.Imp with h | h
  · exact absurd h hbid
  · rw [MakeBids_decoded C a request requestData responseData response hstatus hdec, hsplit,
      makeBidsInner_first_error request.Imp bid post _ _ h pre [] hpre]

/-- The sample response with two stray bids: the error names the first of them. -/
theorem MakeBids_first_unresolved_witness :
    sampleAdapter.MakeBids sampleTableCodec sampleRequest sampleRequestData
      (sampleResponseData 200 "two-stray") =
      (none, some [Error.BadInput "Failed to find impression \"imp7\""]) :=
  MakeBids_first_unresolved sampleTableCodec sampleAdapter sampleRequest sampleRequestData
    (sampleResponseData 200 "two-stray") sampleTwoStrayResponse rfl rfl
    [sampleBid "b1" "imp1"] [sampleBid "b8" "imp8"] (sampleBid "b7" "imp7") rfl
    (by intro b hb; simp only [List.mem_singleton] at hb; subst hb; rfl)
    (by decide)

/-- C19: on a status-200 response whose body decodes to a vendor response without any bid
(no seat-bid, or seat-bids without bids), `MakeBids` returns no error and a bidder
response with an empty bid list and the currency of the vendor, which is not the nil
bidder response of status 204. -/
theorem MakeBids_no_bids (C : Codec) (a : adapter) (request : BidRequest)
    (requestData : RequestData) (responseData : ResponseData) (response : BidResponse)
    (hstatus : responseData.StatusCode = 200)
    (hdec : C.UnmarshalBidResponse responseData.Body = .ok response)
    (hempty : ∀ seatBid ∈ response.SeatBid, seatBid.Bid = []) :
    a.MakeBids C request requestData responseData =
        (some { Currency := response.Cur, Bids := [] }, none) ∧
      a.MakeBids C request requestData responseData ≠ (none, none) ∧
      ∀ (other : ResponseData), other.StatusCode = 204 →
        a.MakeBids C request requestData responseData ≠
          a.MakeBids C request requestData other := by
  have hflat : (response.SeatBid.map (fun seatBid => seatBid.Bid)).flatten = [] := by
    rw [List.flatten_eq_nil_iff]
    intro l hl
    obtain ⟨seatBid, hsb, rfl⟩ := List.mem_map.mp hl
    exact hempty seatBid hsb
  have hmain : a.MakeBids C request requestData responseData =
      (some { Currency := response.Cur, Bids := [] }, none) := by
    rw [MakeBids_decoded C a request requestData responseData response hstatus hdec, hflat]
    rfl
  refine ⟨hmain, ?_, ?_⟩
  · rw [hmain]; simp
  · intro other hother
    have h204 : a.MakeBids C request requestData other = (none, none) := by
      simp [adapter.MakeBids, hother]
    rw [hmain, h204]
    simp

/-- The sample response without bids. -/
theorem MakeBids_no_bids_witness :
    sampleAdapter.MakeBids sampleTableCodec sampleRequest sampleRequestData
      (sampleResponseData 200 "no-bid") = (some { Currency := "", Bids := [] }, none) :=
  (MakeBids_no_bids sampleTableCodec sampleAdapter sampleRequest sampleRequestData
    (sampleResponseData 200 "no-bid") sampleNoBidResponse rfl rfl
    (by intro seatBid hsb; simp only [sampleNoBidResponse, List.mem_singleton] at hsb
        subst hsb; rfl)).1

end UsEskimi
